import Mathlib

/-!
Formal model of the aquarium simulation in `src/sipedon/classes.py`.

The Python classes `Position`, `Food`, `Fish` and `Aquarium` are embedded as
Lean structures.  Python's reference semantics matter here (a fish keeps a
reference to a food object even after the aquarium drops it, and mutating the
object through either reference is visible through the other), so entities
live in per-kind heaps keyed by a numeric identity, and `Aquarium.children`
is a list of references into those heaps.  Every random draw the Python code
makes (`random.randint`, `random.choice`) is modelled by consuming a value
from an explicit oracle stream, normalised into the requested range, so each
function is a pure function of the state and the oracle.

Display-only state (the `skin` strings and their colors, parsed by
`pytermgui`) is omitted: no control flow reads it back.  `Fish.width` is
`real_length` of the skin, kept as a data field (4 for the default skin
`><'>`); `Food.width` is `len("#") = 1`.
-/

set_option linter.unusedVariables false

/-- `Position` (classes.py lines 29-136): a 2-D integer coordinate. -/
structure Position where
  xcoord : Int
  ycoord : Int
deriving DecidableEq, Repr

/-- `Position.__add__`. -/
def Position.add (p q : Position) : Position :=
  ⟨p.xcoord + q.xcoord, p.ycoord + q.ycoord⟩

instance : Add Position := ⟨Position.add⟩

/-- `Position.__sub__`. -/
def Position.sub (p q : Position) : Position :=
  ⟨p.xcoord - q.xcoord, p.ycoord - q.ycoord⟩

instance : Sub Position := ⟨Position.sub⟩

/-- Models the comparison `p.distance_to(q) <= r` for the small nonnegative
integer thresholds used by the code (1 and 5).  `distance_to` computes
`math.sqrt((qx-px)**2 + (qy-py)**2)` on exact integers; since `sqrt` is
monotone and exact at integer squares, the comparison with an integer `r ≥ 0`
equals comparing the squared distance with `r * r`. -/
def distLe (p q : Position) (r : Int) : Bool :=
  decide ((q.xcoord - p.xcoord) * (q.xcoord - p.xcoord)
    + (q.ycoord - p.ycoord) * (q.ycoord - p.ycoord) ≤ r * r)

/-- The stream of values feeding the `random` module.  Each draw consumes the
head (0 when exhausted); normalisation into the range requested by the code
happens at each call site, so every Python-reachable draw corresponds to some
oracle. -/
abbrev Oracle := List Int

/-- Consume one raw value from the oracle. -/
def draw (o : Oracle) : Int × Oracle := (o.headD 0, o.tail)

/-- `random.randint(a, b)`: a uniform draw from `[a, b]`, modelled by mapping
the oracle value into the range.  Python raises `ValueError` when `b < a`;
that branch returns `a` here and is outside every theorem's hypotheses. -/
def randint (a b : Int) (o : Int) : Int :=
  if b < a then a else a + o % (b - a + 1)

/-- `random.choice([0, 0, 1])` (the vertical step of `Food.update`): the
oracle value selects an index into the 3-element list. -/
def choice3 (o : Int) : Int :=
  if o % 3 = 2 then 1 else 0

/-! ### The path planner: `Fish.update_path` (classes.py lines 399-456) -/

/-- The endpoint of `Fish.update_path` after the per-axis move-limit
clamping (lines 408-420).  Note the asymmetry taken from the source: the
x-axis clamps only when `abs(diff.x) > xlimit > 0`, while the y-axis
overrides the endpoint whenever `ylimit > 0`, with sign `-1` when
`diff.y = 0`. -/
def plannedEnd (selfpos dest : Position) (movelimits : Int × Int) : Position :=
  let diff := dest - selfpos
  let endx := if |diff.xcoord| > movelimits.1 ∧ movelimits.1 > 0
    then selfpos.xcoord + (if diff.xcoord > 0 then 1 else -1) * movelimits.1
    else dest.xcoord
  let endy := if movelimits.2 > 0
    then selfpos.ycoord + (if diff.ycoord > 0 then 1 else -1) * movelimits.2
    else dest.ycoord
  ⟨endx, endy⟩

/-- The `while True` loop of `Fish.update_path` (lines 437-456): Bresenham's
line algorithm.  `fuel` bounds the number of iterations; `update_path`
passes enough fuel for the loop to reach its natural exit (proved below). -/
def bresLoop (heading ex ey dx dy ix iy : Int) :
    Nat → Int → Int → Int → List (Position × Int)
  | 0, _, _, _ => []
  | fuel+1, sx, sy, err =>
    (⟨sx, sy⟩, heading) ::
      (if sx = ex ∧ sy = ey then []
       else
        let e2 := 2 * err
        let sx' := if e2 ≥ dy then sx + ix else sx
        let err' := if e2 ≥ dy then err + dy else err
        let sy' := if e2 ≤ dx then sy + iy else sy
        let err'' := if e2 ≤ dx then err' + dx else err'
        bresLoop heading ex ey dx dy ix iy fuel sx' sy' err'')

/-- `Fish.update_path(self, dest)` as a pure function of the fish position,
the destination and the fish's `movelimits`; returns the new `_path`. -/
def update_path (selfpos dest : Position) (movelimits : Int × Int) :
    List (Position × Int) :=
  let startx := selfpos.xcoord
  let starty := selfpos.ycoord
  let e := plannedEnd selfpos dest movelimits
  let diffx := |e.xcoord - startx|
  let intbuff_x : Int := if startx < e.xcoord then 1 else -1
  let diffy := -|e.ycoord - starty|
  let intbuff_y : Int := if starty < e.ycoord then 1 else -1
  let heading := intbuff_x
  let error := diffx + diffy
  bresLoop heading e.xcoord e.ycoord diffx diffy intbuff_x intbuff_y
    ((e.xcoord - startx).natAbs + (e.ycoord - starty).natAbs + 1)
    startx starty error

/-! ### Entity state -/

/-- The mutable state of a `Food` object (classes.py lines 174-230),
minus the display-only `skin`/color. -/
structure FoodData where
  pos : Position
  lifetime : Int
  endpoint : Option Int
  is_static : Bool
  targeters : Int
  previous_horizontal : Int
deriving DecidableEq, Repr

/-- `Food.__init__(pos)`. -/
def mkFood (p : Position) : FoodData :=
  { pos := p, lifetime := 0, endpoint := none, is_static := false,
    targeters := 0, previous_horizontal := 0 }

/-- The mutable state of a `Fish` object (classes.py lines 233-397), minus
the display-only skin/pigment.  `width` is `real_length(skin)` (4 for the
default skin); `movelimits` is the `[xlimit, ylimit]` pair.  `target` holds
the identity of the targeted food object, if any. -/
structure FishData where
  pos : Position
  lifetime : Int
  heading : Int
  target : Option Nat
  skip_frame : Bool
  path : List (Position × Int)
  width : Int
  movelimits : Int × Int
deriving DecidableEq, Repr

/-- `Fish.__init__(pos)` with the default skin. -/
def mkFish (p : Position) : FishData :=
  { pos := p, lifetime := 0, heading := 1, target := none, skip_frame := false,
    path := [], width := 4, movelimits := (-1, -1) }

/-- A reference held in `Aquarium.children`: the kind of the object plus its
heap identity. -/
inductive ChildRef where
  | foodRef (id : Nat)
  | fishRef (id : Nat)
deriving DecidableEq, Repr

/-- The identity a reference points at. -/
def ChildRef.idOf : ChildRef → Nat
  | foodRef i => i
  | fishRef i => i

/-- `isinstance(child, Food)`. -/
def ChildRef.isFood : ChildRef → Bool
  | foodRef _ => true
  | fishRef _ => false

/-- `isinstance(child, Fish)`. -/
def ChildRef.isFish : ChildRef → Bool
  | foodRef _ => false
  | fishRef _ => true

/-- The whole simulation state: the `Aquarium` fields (`pos`, `width`,
`height`, `children`) plus the heaps of every food and fish object ever
created (objects stay in the heap even after `children.remove`, since fish
may still reference them). -/
structure World where
  pos : Position
  width : Int
  height : Int
  children : List ChildRef
  foods : List (Nat × FoodData)
  fishes : List (Nat × FishData)
  nextId : Nat
deriving DecidableEq, Repr

/-- `Aquarium.__init__(pos, width, height)`. -/
def mkAquarium (p : Position) (width height : Int) : World :=
  { pos := p, width := width, height := height, children := [],
    foods := [], fishes := [], nextId := 0 }

/-! ### Heap access -/

/-- Look up the data of an object identity (first matching entry). -/
def lookupId {α : Type} : List (Nat × α) → Nat → Option α
  | [], _ => none
  | (j, a) :: rest, i => if j = i then some a else lookupId rest i

/-- Mutate the object with the given identity (first matching entry). -/
def setId {α : Type} (f : α → α) (i : Nat) : List (Nat × α) → List (Nat × α)
  | [] => []
  | (j, a) :: rest => if j = i then (j, f a) :: rest else (j, a) :: setId f i rest

def getFood? (w : World) (i : Nat) : Option FoodData := lookupId w.foods i

def getFish? (w : World) (i : Nat) : Option FishData := lookupId w.fishes i

def setFood (w : World) (i : Nat) (f : FoodData → FoodData) : World :=
  { w with foods := setId f i w.foods }

def setFish (w : World) (i : Nat) (f : FishData → FishData) : World :=
  { w with fishes := setId f i w.fishes }

/-! ### List utilities mirroring Python list behavior -/

/-- `list[i]` if in range (`None` otherwise): positional lookup. -/
def nth? {α : Type} : List α → Nat → Option α
  | [], _ => none
  | a :: _, 0 => some a
  | _ :: l, n+1 => nth? l n

/-- Python's `list.__contains__` (by object identity here). -/
def memChild (x : ChildRef) : List ChildRef → Bool
  | [] => false
  | c :: rest => if c = x then true else memChild x rest

/-- Python's `list.remove`: drop the first occurrence. -/
def removeFirst (l : List ChildRef) (x : ChildRef) : List ChildRef :=
  match l with
  | [] => []
  | c :: rest => if c = x then rest else c :: removeFirst rest x

/-- `Aquarium.has_type(Food)`. -/
def hasFood (w : World) : Bool := w.children.any ChildRef.isFood

/-- The fish identities in `Aquarium.fish` order (children order). -/
def fishIds (l : List ChildRef) : List Nat :=
  l.filterMap fun c => match c with
    | ChildRef.fishRef i => some i
    | ChildRef.foodRef _ => none

/-- `Aquarium.get_type_at(Food, p)`: the first food child whose position
equals `p`, scanning `children` in order. -/
def getFoodAt (w : World) (p : Position) : List ChildRef → Option (Nat × FoodData)
  | [] => none
  | ChildRef.foodRef i :: rest =>
    (match getFood? w i with
     | some fd => if fd.pos = p then some (i, fd) else getFoodAt w p rest
     | none => getFoodAt w p rest)
  | ChildRef.fishRef _ :: rest => getFoodAt w p rest

/-- The scan in step 1 of `Fish.update` (lines 346-352): the first food child
with `targeters < 2` within distance 5 of `p`. -/
def findFoodTarget (w : World) (p : Position) : List ChildRef → Option (Nat × FoodData)
  | [] => none
  | ChildRef.foodRef i :: rest =>
    (match getFood? w i with
     | some fd =>
        if fd.targeters < 2 ∧ distLe p fd.pos 5 then some (i, fd)
        else findFoodTarget w p rest
     | none => findFoodTarget w p rest)
  | ChildRef.fishRef _ :: rest => findFoodTarget w p rest

/-! ### `Food.update` (classes.py lines 206-230) -/

/-- `Food._get_x`: a fresh `randint(-1, 1)` when the previous horizontal move
was 0, else 0.  Consumes an oracle value only in the first branch, like the
source. -/
def food_get_x (prev : Int) (o : Oracle) : Int × Oracle :=
  if prev = 0 then
    let (r, o') := draw o
    (randint (-1) 1 r, o')
  else (0, o)

/-- `Food.update(self, aquarium)`.  The skin-brightness recomputation (lines
209-210) is display-only and omitted.  Returns the new world, the success
flag, and the remaining oracle. -/
def foodUpdate (w : World) (fid : Nat) (o : Oracle) : World × Bool × Oracle :=
  match getFood? w fid with
  | none => (w, true, o)   -- unreachable: children references always resolve
  | some f =>
    match f.endpoint with
    | none => (w, false, o)
    | some ep =>
      if f.pos.ycoord ≥ ep ∨ f.is_static then
        (setFood w fid (fun g => { g with is_static := true }), true, o)
      else
        let (horizontal, o1) := food_get_x f.previous_horizontal o
        let (r2, o2) := draw o1
        let vertical := choice3 r2
        let newpos := f.pos + Position.mk horizontal vertical
        match getFoodAt w newpos w.children with
        | some (_, cd) =>
          if cd.is_static then
            (setFood w fid (fun g => { g with is_static := true }), true, o2)
          else
            (setFood w fid
              (fun g => { g with pos := newpos, previous_horizontal := horizontal }),
             true, o2)
        | none =>
          (setFood w fid
            (fun g => { g with pos := newpos, previous_horizontal := horizontal }),
           true, o2)

/-! ### `Fish.update` (classes.py lines 343-387) -/

/-- The idle-wiggle loop of step 3 (lines 372-376): `k` entries starting at
loop index `i`, flipping the local heading whenever `i % 3 == 0`. -/
def idleLoop (pos : Position) : Int → Nat → Nat → List (Position × Int)
  | _, _, 0 => []
  | heading, i, k+1 =>
    let h' := if i % 3 = 0 then -heading else heading
    (pos, h') :: idleLoop pos h' (i+1) k

/-- Steps 3-5 of `Fish.update` (lines 368-387), with the fish's working copy
`f` flushed back to the heap on every return path (Python mutates the object
in place). -/
def fishSteps345 (w : World) (fid : Nat) (f : FishData) (o : Oracle) :
    World × Bool × Oracle :=
  if f.path = [] then
    let (r, o1) := draw o
    let rand := randint 0 5 r
    if rand < 4 then
      (setFish w fid (fun _ => { f with path := idleLoop f.pos f.heading 0 rand.toNat }),
       true, o1)
    else
      (setFish w fid (fun _ => f), false, o1)
  else if f.skip_frame then
    (setFish w fid (fun _ => { f with skip_frame := false }), true, o)
  else
    match f.path with
    | (p, h) :: rest =>
      (setFish w fid (fun _ => { f with pos := p, heading := h, path := rest }), true, o)
    | [] => (setFish w fid (fun _ => f), true, o)   -- unreachable: guarded by `path = []` above

/-- Step 1 of `Fish.update` (lines 346-352): acquire a target.  Returns the
world (the acquired food's `targeters` bumped) and the fish's working copy
(target set, path planned to the food). -/
def fishAcquire (w : World) (f : FishData) : World × FishData :=
  if f.target = none ∧ hasFood w then
    match findFoodTarget w f.pos w.children with
    | some (i, fd) =>
      (setFood w i (fun g => { g with targeters := g.targeters + 1 }),
       { f with target := some i, path := update_path f.pos fd.pos f.movelimits })
    | none => (w, f)
  else (w, f)

/-- Step 2 of `Fish.update` (lines 354-366) followed by steps 3-5: pursue the
target if any.  Within consumption range the fish decrements the food's
`targeters`, removes it from `children` if still present, clears its target
and reports failure.  Otherwise it re-plans to the target and immediately
consumes one step, then falls through to steps 3-5. -/
def fishPursue (w : World) (fid : Nat) (f : FishData) (o : Oracle) :
    World × Bool × Oracle :=
  match f.target with
  | none => fishSteps345 w fid f o
  | some tid =>
    match getFood? w tid with
    | none => fishSteps345 w fid f o   -- unreachable: targets always resolve
    | some td =>
      if distLe f.pos td.pos 1 then
        let w2 := setFood w tid (fun g => { g with targeters := g.targeters - 1 })
        let w3 := if memChild (ChildRef.foodRef tid) w2.children then
            { w2 with children := removeFirst w2.children (ChildRef.foodRef tid) }
          else w2
        (setFish w3 fid (fun _ => { f with target := none }), false, o)
      else
        let f2 := { f with path := update_path f.pos td.pos f.movelimits }
        let f3 := match f2.path with
          | (p, h) :: rest => { f2 with pos := p, heading := h, path := rest }
          | [] => f2   -- unreachable: update_path output is never empty
        fishSteps345 w fid f3 o

/-- `Fish.update(self, aquarium)`. -/
def fishUpdate (w : World) (fid : Nat) (o : Oracle) : World × Bool × Oracle :=
  match getFish? w fid with
  | none => (w, true, o)   -- unreachable: children references always resolve
  | some f0 =>
    let a := fishAcquire w f0
    fishPursue a.1 fid a.2 o

/-! ### `Aquarium` operations (classes.py lines 459-630) -/

/-- `Aquarium._get_destination(fish)` (lines 515-527) for a fish of width
`fw`.  The default `Fish` has `lower_bound = 0.0` and `upper_bound = 1.0`,
so `int(height * lower_bound) = 0` and `int(height * upper_bound) = height`
exactly. -/
def getDestination (w : World) (fw : Int) (o : Oracle) : Position × Oracle :=
  let (r1, o1) := draw o
  let (r2, o2) := draw o1
  (⟨w.pos.xcoord + randint (-1) (w.width - fw) r1,
    w.pos.ycoord + randint 1 (1 + w.height) r2⟩, o2)

/-- `Aquarium.clamp` on a bare position, for a child of width `cw`
(lines 529-544). -/
def clampPos (aq : Position) (width height cw : Int) (p : Position) : Position :=
  ⟨max (min (aq.xcoord + width - cw + 1) p.xcoord) (aq.xcoord - 1),
   max (min (aq.ycoord + height - 1) p.ycoord) aq.ycoord⟩

/-- `Aquarium.clamp(child)`: clamp the referenced object's position in the
heap (food width is `len("#") = 1`). -/
def clampChild (w : World) (c : ChildRef) : World :=
  match c with
  | ChildRef.fishRef i =>
    setFish w i (fun f => { f with pos := clampPos w.pos w.width w.height f.width f.pos })
  | ChildRef.foodRef i =>
    setFood w i (fun f => { f with pos := clampPos w.pos w.width w.height 1 f.pos })

/-- `child.lifetime += 1` at the end of each loop iteration (line 628). -/
def incLifetime (w : World) (c : ChildRef) : World :=
  match c with
  | ChildRef.fishRef i => setFish w i (fun f => { f with lifetime := f.lifetime + 1 })
  | ChildRef.foodRef i => setFood w i (fun f => { f with lifetime := f.lifetime + 1 })

/-- `child.update(self)` dispatch in the update loop (line 618). -/
def childUpdate (w : World) (c : ChildRef) (o : Oracle) : World × Bool × Oracle :=
  match c with
  | ChildRef.fishRef i => fishUpdate w i o
  | ChildRef.foodRef i => foodUpdate w i o

/-- The recovery on a failed update (lines 619-624): a fish gets a fresh
random destination planned, a food is removed from `children`. -/
def recover (w : World) (c : ChildRef) (o : Oracle) : World × Oracle :=
  match c with
  | ChildRef.fishRef i =>
    (match getFish? w i with
     | none => (w, o)
     | some f =>
       let (dest, o') := getDestination w f.width o
       (setFish w i (fun g => { g with path := update_path g.pos dest g.movelimits }), o'))
  | ChildRef.foodRef _ =>
    ({ w with children := removeFirst w.children c }, o)

/-- One iteration of the `for child in self.children` loop body of
`Aquarium.update` (lines 617-628). -/
def updateVisit (w : World) (c : ChildRef) (o : Oracle) : World × Oracle :=
  match childUpdate w c o with
  | (w1, ok, o1) =>
    let s := if ok then (w1, o1) else recover w1 c o1
    (incLifetime (clampChild s.1 c) c, s.2)

/-- The `for child in self.children` loop of `Aquarium.update`, with
Python's live-list iteration semantics: an internal index `i` advances by one
each iteration and reads the current (possibly shrunk) list, stopping when
the index falls off the end.  `fuel` bounds the iteration count;
`updateAquarium` passes the initial list length, which suffices since the
list never grows. -/
def updateLoop : Nat → World → Nat → Oracle → World × Oracle
  | 0, w, _, o => (w, o)
  | fuel+1, w, i, o =>
    match nth? w.children i with
    | none => (w, o)
    | some c =>
      match updateVisit w c o with
      | (w', o') => updateLoop fuel w' (i+1) o'

/-- `Aquarium.update()` (lines 611-630); the Python method also returns
`True`, which carries no information. -/
def updateAquarium (w : World) (o : Oracle) : World × Oracle :=
  updateLoop w.children.length w 0 o

/-- The broadcast in `Aquarium.add` for a food (lines 568-570): every fish at
index ≡ 0 (mod 3) of the fish list has its target overwritten with the new
food. -/
def broadcastGo (tid : Nat) : Nat → List Nat → World → World
  | _, [], w => w
  | i, fid :: rest, w =>
    let w' := if i % 3 = 0 then setFish w fid (fun g => { g with target := some tid }) else w
    broadcastGo tid (i+1) rest w'

/-- `Aquarium.add(food)` (lines 546-571): append a fresh food object, set its
`endpoint`, and broadcast it as a target. -/
def addFoodOp (w : World) (p : Position) : World :=
  let fid := w.nextId
  let w1 := { w with
    foods := w.foods ++ [(fid, mkFood p)],
    children := w.children ++ [ChildRef.foodRef fid],
    nextId := fid + 1 }
  let w2 := setFood w1 fid (fun g => { g with endpoint := some (w.pos.ycoord + w.height - 1) })
  broadcastGo fid 0 (fishIds w2.children) w2

/-- `Aquarium.add(fish, randomize_pos)` (lines 546-574): append a fresh fish
object, randomising its position within bounds when requested (`r1`, `r2`
feed the two `randint` calls of `_get_destination`). -/
def addFishOp (w : World) (p : Position) (randomize : Bool) (r1 r2 : Int) : World :=
  let fid := w.nextId
  let f0 := mkFish p
  let f1 := if randomize then { f0 with pos := (getDestination w f0.width [r1, r2]).1 } else f0
  { w with
    fishes := w.fishes ++ [(fid, f1)],
    children := w.children ++ [ChildRef.fishRef fid],
    nextId := fid + 1 }

/-- `fish.move_origin(diff)` / `food.move_origin(diff)` as invoked by
`Aquarium.move` (lines 389-397 and 148-155): shift the object's position
(and, for a fish, every buffered path entry) and set the skip flag. -/
def moveOrigin (diff : Position) (w : World) (c : ChildRef) : World :=
  match c with
  | ChildRef.fishRef i =>
    setFish w i (fun f =>
      { f with pos := f.pos + diff,
               path := f.path.map (fun ph => (ph.1 + diff, ph.2)),
               skip_frame := true })
  | ChildRef.foodRef i =>
    setFood w i (fun f => { f with pos := f.pos + diff })

/-- `Aquarium.move(new)` (lines 598-609). -/
def moveAquarium (w : World) (newpos : Position) : World :=
  let diff := newpos - w.pos
  let w1 := { w with pos := newpos }
  w1.children.foldl (moveOrigin diff) w1

/-- A host-driven operation on the aquarium: the public mutators the claims
quantify over. -/
inductive Op where
  | addFish (p : Position) (randomize : Bool) (r1 r2 : Int)
  | addFood (p : Position)
  | update (o : Oracle)
deriving Repr

def runOp (w : World) : Op → World
  | Op.addFish p r r1 r2 => addFishOp w p r r1 r2
  | Op.addFood p => addFoodOp w p
  | Op.update o => (updateAquarium w o).1

def runOps (w : World) (ops : List Op) : World := ops.foldl runOp w

/-! ### Derived observations used by the theorems -/

/-- The bounds predicate of the claim: for a child of width `cw`,
`origin.x - 1 ≤ x ≤ origin.x + width - cw + 1` and
`origin.y ≤ y ≤ origin.y + height - 1`. -/
def inBounds (aq : Position) (width height cw : Int) (p : Position) : Bool :=
  decide (aq.xcoord - 1 ≤ p.xcoord ∧ p.xcoord ≤ aq.xcoord + width - cw + 1
    ∧ aq.ycoord ≤ p.ycoord ∧ p.ycoord ≤ aq.ycoord + height - 1)

/-- Whether the object a reference points at is inside the aquarium bounds
(vacuously true for a dangling reference). -/
def childInBounds (w : World) (c : ChildRef) : Bool :=
  match c with
  | ChildRef.fishRef i =>
    (match getFish? w i with
     | none => true
     | some f => inBounds w.pos w.width w.height f.width f.pos)
  | ChildRef.foodRef i =>
    (match getFood? w i with
     | none => true
     | some f => inBounds w.pos w.width w.height 1 f.pos)

/-- The position and lifetime of the object with a given identity, looked up
in both heaps — the observables of a child that the update loop skips. -/
def posLife (w : World) (i : Nat) : Option (Position × Int) × Option (Position × Int) :=
  ((getFish? w i).map (fun f => (f.pos, f.lifetime)),
   (getFood? w i).map (fun g => (g.pos, g.lifetime)))

/-- Adjacency of consecutive path entries: positions differ by at most one
in each axis. -/
def adjStep (p q : Position × Int) : Prop :=
  |q.1.xcoord - p.1.xcoord| ≤ 1 ∧ |q.1.ycoord - p.1.ycoord| ≤ 1

/-- Every food object in a heap has at most 2 targeters. -/
def foodsBounded (l : List (Nat × FoodData)) : Prop :=
  ∀ p ∈ l, p.2.targeters ≤ 2

/-! ### Concrete scenario states used by counterexamples and witnesses -/

/-- One fish (id 0) at (3,3) targeting the food (id 1) also at (3,3): the
consumption configuration of C7. -/
def wC7 : World :=
  { pos := ⟨0, 0⟩, width := 20, height := 10,
    children := [ChildRef.fishRef 0, ChildRef.foodRef 1],
    foods := [(1, { pos := ⟨3, 3⟩, lifetime := 0, endpoint := some 9,
                    is_static := false, targeters := 1, previous_horizontal := 0 })],
    fishes := [(0, { pos := ⟨3, 3⟩, lifetime := 0, heading := 1, target := some 1,
                     skip_frame := false, path := [], width := 4,
                     movelimits := (-1, -1) })],
    nextId := 2 }

/-- The fish data of `wC7`. -/
def fC7 : FishData :=
  { pos := ⟨3, 3⟩, lifetime := 0, heading := 1, target := some 1,
    skip_frame := false, path := [], width := 4, movelimits := (-1, -1) }

/-- The food data of `wC7`. -/
def dC7 : FoodData :=
  { pos := ⟨3, 3⟩, lifetime := 0, endpoint := some 9, is_static := false,
    targeters := 1, previous_horizontal := 0 }

/-- The fish data of `wC8`: mid-path, no target, skip flag set. -/
def fC8 : FishData :=
  { pos := ⟨3, 3⟩, lifetime := 0, heading := 1, target := none,
    skip_frame := true, path := [(⟨4, 3⟩, 1), (⟨5, 4⟩, 1)], width := 4,
    movelimits := (-1, -1) }

/-- One fish (id 0) mid-path with the skip flag set and no food anywhere:
the post-translation configuration of C8. -/
def wC8 : World :=
  { pos := ⟨0, 0⟩, width := 20, height := 10,
    children := [ChildRef.fishRef 0],
    foods := [],
    fishes := [(0, fC8)],
    nextId := 1 }

/-- C1's counterexample run: a food at (5,5), a fish A at the same spot that
consumes it on the first tick, and a fish B parked far outside the bounds
after them in the children list. -/
def wC1 : World :=
  runOps (mkAquarium ⟨0, 0⟩ 20 10)
    [Op.addFood ⟨5, 5⟩, Op.addFish ⟨5, 5⟩ false 0 0,
     Op.addFish ⟨100, 100⟩ false 0 0, Op.update [0, 0, 0, 0, 0, 0, 0, 0]]

/-- C6's failing run: a fish at (3,3), then a food dropped at (3,3) (the
add-time broadcast gives the fish this food as its target without touching
`targeters`), then one tick in which the fish consumes it. -/
def wC6 : World :=
  runOps (mkAquarium ⟨0, 0⟩ 20 10)
    [Op.addFish ⟨3, 3⟩ false 0 0, Op.addFood ⟨3, 3⟩,
     Op.update [0, 0, 0, 0, 0, 0, 0, 0]]

/-- C9's counterexample run: a lone fish whose first tick draws
`randint(0,5) = 4`, so its update fails; its lifetime is incremented
anyway. -/
def wC9 : World :=
  runOps (mkAquarium ⟨0, 0⟩ 20 10)
    [Op.addFish ⟨3, 3⟩ false 0 0, Op.update [4, 0, 0]]

/-- The pre-update state of the C9 run. -/
def wC9pre : World :=
  runOps (mkAquarium ⟨0, 0⟩ 20 10) [Op.addFish ⟨3, 3⟩ false 0 0]

/-- C10's counterexample run: fish A (id 0) precedes the food (id 1) it
consumes, and fish B (id 2) follows the food. -/
def wC10 : World :=
  runOps (mkAquarium ⟨0, 0⟩ 20 10)
    [Op.addFish ⟨3, 3⟩ false 0 0, Op.addFood ⟨3, 3⟩,
     Op.addFish ⟨8, 3⟩ false 0 0, Op.update [0, 0, 0, 0, 0, 0, 0, 0]]

/-- A food-free aquarium with two fish parked outside the bounds, for the
C1 witness. -/
def wC1w : World :=
  { pos := ⟨0, 0⟩, width := 20, height := 10,
    children := [ChildRef.fishRef 0, ChildRef.fishRef 1],
    foods := [],
    fishes := [(0, mkFish ⟨100, 100⟩), (1, mkFish ⟨-50, 3⟩)],
    nextId := 2 }

/-- A two-child state for the C10 witness: a food (id 0) that was never
registered (`endpoint = none`, so its update fails and it is removed),
followed by a fish (id 1). -/
def wC10w : World :=
  { pos := ⟨0, 0⟩, width := 20, height := 10,
    children := [ChildRef.foodRef 0, ChildRef.fishRef 1],
    foods := [(0, mkFood ⟨2, 2⟩)],
    fishes := [(1, mkFish ⟨9, 9⟩)],
    nextId := 2 }

/-- A well-formed planner path from `(sx, sy)` to `(ex, ey)` with constant
heading `h`: nonempty, starts at the start point, ends at the endpoint, and
moves by at most one cell per axis per step. -/
inductive GoodPath (h : Int) : Int → Int → Int → Int → List (Position × Int) → Prop
  | last (ex ey : Int) : GoodPath h ex ey ex ey [(⟨ex, ey⟩, h)]
  | step (sx sy x y ex ey : Int) (l : List (Position × Int))
      (hadj : |x - sx| ≤ 1 ∧ |y - sy| ≤ 1)
      (htail : GoodPath h x y ex ey l) :
      GoodPath h sx sy ex ey ((⟨sx, sy⟩, h) :: l)

theorem goodPath_ne {h sx sy ex ey : Int} {l : List (Position × Int)}
    (hg : GoodPath h sx sy ex ey l) : l ≠ [] := by
  cases hg <;> simp

theorem goodPath_head {h sx sy ex ey : Int} {l : List (Position × Int)}
    (hg : GoodPath h sx sy ex ey l) (d : Position × Int) :
    l.headD d = (⟨sx, sy⟩, h) := by
  cases hg <;> rfl

theorem goodPath_last {h sx sy ex ey : Int} {l : List (Position × Int)}
    (hg : GoodPath h sx sy ex ey l) (d : Position × Int) :
    l.getLastD d = (⟨ex, ey⟩, h) := by
  induction hg generalizing d with
  | last ex ey => rfl
  | step sx sy x y ex ey l hadj htail ih =>
    rw [List.getLastD_cons]
    exact ih _

theorem goodPath_heading {h sx sy ex ey : Int} {l : List (Position × Int)}
    (hg : GoodPath h sx sy ex ey l) : ∀ e ∈ l, e.2 = h := by
  induction hg with
  | last ex ey => intro e he; simp at he; rw [he]
  | step sx sy x y ex ey l hadj htail ih =>
    intro e he
    rcases List.mem_cons.1 he with h1 | h2
    · rw [h1]
    · exact ih e h2

theorem goodPath_chain {h sx sy ex ey : Int} {l : List (Position × Int)}
    (hg : GoodPath h sx sy ex ey l) : List.Chain' adjStep l := by
  induction hg with
  | last ex ey => exact List.chain'_singleton _
  | step sx sy x y ex ey l hadj htail ih =>
    cases l with
    | nil => exact absurd rfl (goodPath_ne htail)
    | cons c cs =>
      have hc : c = (⟨x, y⟩, h) := goodPath_head htail c
      refine List.chain'_cons.2 ⟨?_, ih⟩
      rw [hc]
      exact hadj

/-- Unfolding of one non-final iteration of the Bresenham loop. -/
theorem bresLoop_succ_ne {h ex ey dx dy ix iy sx sy err : Int} {fuel : Nat}
    (hend : ¬(sx = ex ∧ sy = ey)) :
    bresLoop h ex ey dx dy ix iy (fuel + 1) sx sy err =
      (⟨sx, sy⟩, h) :: bresLoop h ex ey dx dy ix iy fuel
        (if 2 * err ≥ dy then sx + ix else sx)
        (if 2 * err ≤ dx then sy + iy else sy)
        (if 2 * err ≤ dx then (if 2 * err ≥ dy then err + dy else err) + dx
         else (if 2 * err ≥ dy then err + dy else err)) := by
  simp only [bresLoop, if_neg hend]

/-- The central invariant of the Bresenham loop: starting from the state
that has advanced `a` of `X` unit moves on x and `b` of `Y` unit moves on y
(with the error accumulator determined by `a` and `b`), the loop produces a
well-formed path to `(ex, ey)`, provided the fuel exceeds the remaining
move count. -/
theorem bresLoop_good (h ex ey ix iy X Y : Int) (hX : 0 ≤ X) (hY : 0 ≤ Y)
    (hix : ix = 1 ∨ ix = -1) (hiy : iy = 1 ∨ iy = -1) :
    ∀ (fuel : Nat) (a b sx sy err : Int),
      0 ≤ a → a ≤ X → 0 ≤ b → b ≤ Y →
      sx = ex - ix * (X - a) → sy = ey - iy * (Y - b) →
      err = X - Y + b * X - a * Y →
      X - a + (Y - b) < (fuel : Int) →
      GoodPath h sx sy ex ey (bresLoop h ex ey X (-Y) ix iy fuel sx sy err) := by
  intro fuel
  induction fuel with
  | zero =>
    intro a b sx sy err ha0 haX hb0 hbY hsx hsy herr hfuel
    exfalso
    simp only [Nat.cast_zero] at hfuel
    omega
  | succ fuel ih =>
    intro a b sx sy err ha0 haX hb0 hbY hsx hsy herr hfuel
    by_cases hend : sx = ex ∧ sy = ey
    · have : bresLoop h ex ey X (-Y) ix iy (fuel + 1) sx sy err = [(⟨sx, sy⟩, h)] := by
        simp only [bresLoop, if_pos hend]
      rw [this, hend.1, hend.2]
      exact GoodPath.last ex ey
    · rw [bresLoop_succ_ne hend]
      have hixne : ix ≠ 0 := by rcases hix with rfl | rfl <;> omega
      have hiyne : iy ≠ 0 := by rcases hiy with rfl | rfl <;> omega
      -- if both axes were finished we would be at the endpoint
      have hne : a < X ∨ b < Y := by
        by_contra hcon
        push_neg at hcon
        have ha : a = X := le_antisymm haX hcon.1
        have hb : b = Y := le_antisymm hbY hcon.2
        apply hend
        constructor
        · rw [hsx, ha]; ring
        · rw [hsy, hb]; ring
      -- the x-advance condition never fires once `a = X`
      have hc1a : 2 * err ≥ -Y → a < X := by
        intro hc1
        rcases lt_or_eq_of_le haX with hlt | heq
        · exact hlt
        · exfalso
          have hb : b < Y := by
            rcases hne with hx | hy
            · omega
            · exact hy
          rw [herr, ← heq] at hc1
          nlinarith [mul_le_mul_of_nonneg_left (show b + 1 ≤ Y by omega) ha0]
      -- the y-advance condition never fires once `b = Y`
      have hc2b : 2 * err ≤ X → b < Y := by
        intro hc2
        rcases lt_or_eq_of_le hbY with hlt | heq
        · exact hlt
        · exfalso
          have ha : a < X := by
            rcases hne with hx | hy
            · exact hx
            · omega
          rw [herr, ← heq] at hc2
          nlinarith [mul_le_mul_of_nonneg_left (show a + 1 ≤ X by omega) hb0]
      -- at least one axis advances each iteration
      have hprog : 2 * err ≥ -Y ∨ 2 * err ≤ X := by
        by_cases hc1 : 2 * err ≥ -Y
        · exact Or.inl hc1
        · right; omega
      have hadjx : |(if 2 * err ≥ -Y then sx + ix else sx) - sx| ≤ 1 := by
        split
        · simp only [add_sub_cancel_left]
          rcases hix with rfl | rfl <;> simp
        · simp
      have hadjy : |(if 2 * err ≤ X then sy + iy else sy) - sy| ≤ 1 := by
        split
        · simp only [add_sub_cancel_left]
          rcases hiy with rfl | rfl <;> simp
        · simp
      refine GoodPath.step _ _ _ _ _ _ _ ⟨hadjx, hadjy⟩ ?_
      by_cases hc1 : 2 * err ≥ -Y <;> by_cases hc2 : 2 * err ≤ X
      · rw [if_pos hc1, if_pos hc2, if_pos hc2, if_pos hc1]
        refine ih (a + 1) (b + 1) _ _ _ (by omega) (hc1a hc1) (by omega) (hc2b hc2)
          ?_ ?_ ?_ ?_
        · rw [hsx]; ring
        · rw [hsy]; ring
        · rw [herr]; ring
        · push_cast at hfuel ⊢; omega
      · rw [if_pos hc1, if_neg hc2, if_neg hc2, if_pos hc1]
        refine ih (a + 1) b _ _ _ (by omega) (hc1a hc1) hb0 hbY ?_ ?_ ?_ ?_
        · rw [hsx]; ring
        · rw [hsy]
        · rw [herr]; ring
        · push_cast at hfuel ⊢; omega
      · rw [if_neg hc1, if_pos hc2, if_pos hc2, if_neg hc1]
        refine ih a (b + 1) _ _ _ ha0 haX (by omega) (hc2b hc2) ?_ ?_ ?_ ?_
        · rw [hsx]
        · rw [hsy]; ring
        · rw [herr]; ring
        · push_cast at hfuel ⊢; omega
      · exact absurd hprog (by simp [hc1, hc2])

/-- `update_path` always yields a well-formed path from the fish position to
the clamped endpoint, with the constant heading `+1` when moving right,
`-1` otherwise. -/
theorem update_path_good (a b : Position) (ml : Int × Int) :
    GoodPath (if a.xcoord < (plannedEnd a b ml).xcoord then 1 else -1)
      a.xcoord a.ycoord (plannedEnd a b ml).xcoord (plannedEnd a b ml).ycoord
      (update_path a b ml) := by
  have hx : ∀ u v : Int, (if u < v then (1 : Int) else -1) = 1 ∨
      (if u < v then (1 : Int) else -1) = -1 := by
    intro u v; split <;> simp
  have hstart : ∀ u v : Int, u = v - (if u < v then (1 : Int) else -1) * (|v - u| - 0) := by
    intro u v
    rcases lt_or_le u v with hlt | hle
    · rw [if_pos hlt, abs_of_nonneg (by omega)]; ring
    · rw [if_neg (by omega), abs_of_nonpos (by omega)]; ring
  show GoodPath _ _ _ _ _ (update_path a b ml)
  unfold update_path
  refine bresLoop_good _ _ _ _ _ _ _ (abs_nonneg _) (abs_nonneg _) (hx _ _) (hx _ _)
    _ 0 0 _ _ _ (by omega) (abs_nonneg _) (by omega) (abs_nonneg _)
    (hstart _ _) (hstart _ _) (by ring) ?_
  simp only [Int.abs_eq_natAbs]
  push_cast
  omega

theorem Position.sub_x (p q : Position) : (p - q).xcoord = p.xcoord - q.xcoord := rfl

theorem Position.sub_y (p q : Position) : (p - q).ycoord = p.ycoord - q.ycoord := rfl

theorem Position.add_x (p q : Position) : (p + q).xcoord = p.xcoord + q.xcoord := rfl

theorem Position.add_y (p q : Position) : (p + q).ycoord = p.ycoord + q.ycoord := rfl

/-- With both limits at the `-1` sentinel no clamping happens. -/
theorem plannedEnd_unlimited (a b : Position) : plannedEnd a b (-1, -1) = b := by
  simp [plannedEnd]

/-- The last entry of a planned path is the clamped endpoint, paired with
the path's constant heading. -/
theorem update_path_last (a b : Position) (ml : Int × Int) (d : Position × Int) :
    (update_path a b ml).getLastD d
      = (plannedEnd a b ml, if a.xcoord < (plannedEnd a b ml).xcoord then 1 else -1) :=
  goodPath_last (update_path_good a b ml) d

/-- C2: for any two positions, planning with both movement limits at the
unlimited sentinel (-1) returns a nonempty sequence whose first position is
the start, whose last position is the destination, and whose consecutive
positions differ by at most 1 in each coordinate. -/
theorem C2_unlimited_plan (a b : Position) :
    update_path a b (-1, -1) ≠ [] ∧
    ((update_path a b (-1, -1)).headD (b, 0)).1 = a ∧
    ((update_path a b (-1, -1)).getLastD (a, 0)).1 = b ∧
    List.Chain' adjStep (update_path a b (-1, -1)) := by
  have hg := update_path_good a b (-1, -1)
  rw [plannedEnd_unlimited] at hg
  refine ⟨goodPath_ne hg, ?_, ?_, goodPath_chain hg⟩
  · rw [goodPath_head hg (b, 0)]
  · rw [goodPath_last hg (a, 0)]

/-- Counterexample to C3 as stated: planning `(0,0) → (0,1)` with y-limit
`L = 2` has `|Δy| = 1 ≤ L`, so the claim demands the endpoint y-coordinate
equal the destination's (1); the code forces `endy = starty + sign·L`
whenever `L > 0` and ends at y = 2 instead, overshooting past the
destination. -/
theorem C3_cex :
    ((update_path ⟨0, 0⟩ ⟨0, 1⟩ (-1, 2)).getLastD (⟨0, 0⟩, 0)).1.ycoord ≠ 1 ∧
    ((update_path ⟨0, 0⟩ ⟨0, 1⟩ (-1, 2)).getLastD (⟨0, 0⟩, 0)).1.ycoord = 2 := by
  decide

/-- C3 (amended): the x-axis behaves as claimed — with a positive x-limit,
a delta within the limit reaches the true destination's x, and a larger
delta stops at `start + sign(Δx)·L`.  The y-axis deviates from the claim:
whenever its limit is positive the endpoint y is always
`start + (if Δy > 0 then L else -L)`, regardless of whether `|Δy|` exceeds
the limit (so with `Δy = 0` it moves a full `L` away from the
destination). -/
theorem C3_amended (a b : Position) (xl yl : Int) :
    (0 < xl → |b.xcoord - a.xcoord| ≤ xl →
      ((update_path a b (xl, yl)).getLastD (a, 0)).1.xcoord = b.xcoord) ∧
    (0 < xl → xl < |b.xcoord - a.xcoord| →
      ((update_path a b (xl, yl)).getLastD (a, 0)).1.xcoord
        = a.xcoord + (if 0 < b.xcoord - a.xcoord then 1 else -1) * xl) ∧
    (0 < yl →
      ((update_path a b (xl, yl)).getLastD (a, 0)).1.ycoord
        = a.ycoord + (if 0 < b.ycoord - a.ycoord then 1 else -1) * yl) := by
  rw [update_path_last]
  refine ⟨?_, ?_, ?_⟩
  · intro hxl hle
    simp only [plannedEnd, Position.sub_x]
    rw [if_neg (by omega)]
  · intro hxl hlt
    simp only [plannedEnd, Position.sub_x]
    rw [if_pos ⟨by omega, by omega⟩]
  · intro hyl
    simp only [plannedEnd, Position.sub_y]
    rw [if_pos (by omega)]

/-- Witness for C3 (amended), at `(0,0) → (2,9)` with limits `(3, 4)`:
`|Δx| = 2 ≤ 3` so x reaches the destination, and y stops at `0 + 4`. -/
theorem C3_witness :
    ((update_path ⟨0, 0⟩ ⟨2, 9⟩ (3, 4)).getLastD (⟨0, 0⟩, 0)).1.xcoord = 2 ∧
    ((update_path ⟨0, 0⟩ ⟨2, 9⟩ (3, 4)).getLastD (⟨0, 0⟩, 0)).1.ycoord
      = 0 + (if (0 : Int) < 9 - 0 then 1 else -1) * 4 := by
  have h := C3_amended ⟨0, 0⟩ ⟨2, 9⟩ 3 4
  exact ⟨h.1 (by decide) (by decide), h.2.2 (by decide)⟩

/-- Counterexample to C4 as stated: planning `(0,0) → (0,1)` (unlimited)
has the endpoint at the same x-coordinate as the start, so the claim
demands heading `+1`; the code computes `1 if startx < endx else -1`,
giving `-1` on every entry. -/
theorem C4_cex :
    ((update_path ⟨0, 0⟩ ⟨0, 1⟩ (-1, -1)).getLastD (⟨0, 0⟩, 0)).1.xcoord = 0 ∧
    (update_path ⟨0, 0⟩ ⟨0, 1⟩ (-1, -1)).map Prod.snd = [-1, -1] := by
  decide

/-- C4 (amended): the heading component is the same in every entry of a
planned path, equal to `+1` when the (clamped) endpoint is strictly to the
right of the start and `-1` otherwise — in particular `-1`, not `+1`, when
there is no horizontal motion. -/
theorem C4_heading_constant (a b : Position) (ml : Int × Int)
    (e : Position × Int) (he : e ∈ update_path a b ml) :
    e.2 = if a.xcoord < ((update_path a b ml).getLastD (a, 0)).1.xcoord
      then 1 else -1 := by
  rw [update_path_last]
  exact goodPath_heading (update_path_good a b ml) e he

/-- Witness for C4 (amended) at the entry `((0,0), -1)` of the path
`(0,0) → (0,1)`. -/
theorem C4_witness :
    ((⟨0, 0⟩ : Position), (-1 : Int)).2
      = if (⟨0, 0⟩ : Position).xcoord
          < ((update_path ⟨0, 0⟩ ⟨0, 1⟩ (-1, -1)).getLastD (⟨0, 0⟩, 0)).1.xcoord
        then 1 else -1 :=
  C4_heading_constant ⟨0, 0⟩ ⟨0, 1⟩ (-1, -1) (⟨0, 0⟩, -1) (by decide)

/-! ### Heap access lemmas -/

theorem lookup_setId_self {α : Type} (f : α → α) (i : Nat) (l : List (Nat × α)) :
    lookupId (setId f i l) i = (lookupId l i).map f := by
  induction l with
  | nil => rfl
  | cons p rest ih =>
    obtain ⟨j, a⟩ := p
    by_cases hj : j = i
    · simp [setId, lookupId, hj]
    · simp [setId, lookupId, hj, ih]

theorem lookup_setId_other {α : Type} (f : α → α) {i j : Nat} (hne : j ≠ i)
    (l : List (Nat × α)) : lookupId (setId f i l) j = lookupId l j := by
  induction l with
  | nil => rfl
  | cons p rest ih =>
    obtain ⟨k, a⟩ := p
    simp only [setId]
    by_cases hk : k = i
    · rw [if_pos hk]
      simp only [lookupId]
      rw [if_neg (by omega), if_neg (by omega)]
    · rw [if_neg hk]
      simp only [lookupId]
      by_cases hkj : k = j
      · rw [if_pos hkj, if_pos hkj]
      · rw [if_neg hkj, if_neg hkj]
        exact ih

theorem mem_setId {α : Type} (f : α → α) (i : Nat) (l : List (Nat × α)) :
    ∀ p ∈ setId f i l, p ∈ l ∨ ∃ a, lookupId l i = some a ∧ p = (i, f a) := by
  induction l with
  | nil => intro p hp; simp [setId] at hp
  | cons q rest ih =>
    obtain ⟨k, a⟩ := q
    intro p hp
    by_cases hk : k = i
    · rw [setId, if_pos hk] at hp
      rcases List.mem_cons.1 hp with h1 | h2
      · right
        refine ⟨a, ?_, by rw [h1, hk]⟩
        rw [lookupId, if_pos hk]
      · left
        exact List.mem_cons_of_mem _ h2
    · rw [setId, if_neg hk] at hp
      rcases List.mem_cons.1 hp with h1 | h2
      · left
        rw [h1]
        exact List.mem_cons_self _ _
      · rcases ih p h2 with h3 | ⟨b, hb1, hb2⟩
        · left
          exact List.mem_cons_of_mem _ h3
        · right
          refine ⟨b, ?_, hb2⟩
          rw [lookupId, if_neg hk]
          exact hb1

theorem lookup_mem {α : Type} {l : List (Nat × α)} {i : Nat} {a : α}
    (h : lookupId l i = some a) : (i, a) ∈ l := by
  induction l with
  | nil => simp [lookupId] at h
  | cons p rest ih =>
    obtain ⟨j, b⟩ := p
    by_cases hj : j = i
    · rw [lookupId, if_pos hj] at h
      obtain rfl : b = a := Option.some.inj h
      rw [← hj]
      exact List.mem_cons_self _ _
    · rw [lookupId, if_neg hj] at h
      exact List.mem_cons_of_mem _ (ih h)

theorem memChild_iff (x : ChildRef) (l : List ChildRef) :
    memChild x l = true ↔ x ∈ l := by
  induction l with
  | nil => simp [memChild]
  | cons c rest ih =>
    rw [memChild]
    by_cases hc : c = x
    · simp [hc]
    · rw [if_neg hc, ih]
      constructor
      · exact fun h => List.mem_cons_of_mem _ h
      · intro h
        rcases List.mem_cons.1 h with h1 | h2
        · exact absurd h1.symm hc
        · exact h2

/-! ### C7: consumption of a target in range -/

/-- C7: when a fish's update runs while it holds a target food within
distance 1, the fish decrements that food's `targeters`, removes the food
from `children` exactly when it is still present (touching nothing when it
was already removed — no error path exists), clears its own target, and
returns the failure signal, consuming no randomness. -/
theorem C7_consume (w : World) (fid tid : Nat) (f : FishData) (td : FoodData)
    (o : Oracle) (hf : getFish? w fid = some f) (ht : f.target = some tid)
    (htd : getFood? w tid = some td) (hdist : distLe f.pos td.pos 1 = true) :
    (fishUpdate w fid o).2.1 = false ∧
    (fishUpdate w fid o).2.2 = o ∧
    getFish? (fishUpdate w fid o).1 fid = some { f with target := none } ∧
    getFood? (fishUpdate w fid o).1 tid
      = some { td with targeters := td.targeters - 1 } ∧
    (memChild (ChildRef.foodRef tid) w.children = true →
      (fishUpdate w fid o).1.children = removeFirst w.children (ChildRef.foodRef tid)) ∧
    (memChild (ChildRef.foodRef tid) w.children = false →
      (fishUpdate w fid o).1.children = w.children) := by
  have hacq : fishAcquire w f = (w, f) := by
    simp [fishAcquire, ht]
  have hupd : fishUpdate w fid o =
      (setFish
        (if memChild (ChildRef.foodRef tid) w.children then
          { setFood w tid (fun g => { g with targeters := g.targeters - 1 }) with
            children := removeFirst w.children (ChildRef.foodRef tid) }
         else setFood w tid (fun g => { g with targeters := g.targeters - 1 }))
        fid (fun _ => { f with target := none }), false, o) := by
    simp only [fishUpdate, hf, hacq, fishPursue, ht, htd, hdist, if_true, setFood]
  rw [hupd]
  refine ⟨rfl, rfl, ?_, ?_, ?_, ?_⟩
  · have hf' : lookupId w.fishes fid = some f := hf
    split <;> simp [getFish?, setFish, setFood, lookup_setId_self, hf']
  · have htd' : lookupId w.foods tid = some td := htd
    split <;> simp [getFood?, setFish, setFood, lookup_setId_self, htd']
  · intro hmem
    rw [if_pos hmem]
    simp [setFish]
  · intro hmem
    rw [if_neg (by simp [hmem])]
    simp [setFish, setFood]

/-- Witness for C7 at the concrete state `wC7`. -/
theorem C7_witness :
    (fishUpdate wC7 0 []).2.1 = false ∧
    getFish? (fishUpdate wC7 0 []).1 0 = some { fC7 with target := none } ∧
    getFood? (fishUpdate wC7 0 []).1 1
      = some { dC7 with targeters := dC7.targeters - 1 } ∧
    (fishUpdate wC7 0 []).1.children = removeFirst wC7.children (ChildRef.foodRef 1) := by
  have h := C7_consume wC7 0 1 fC7 dC7 [] (by decide) (by decide) (by decide) (by decide)
  exact ⟨h.1, h.2.2.1, h.2.2.2.1, h.2.2.2.2.1 (by decide)⟩

/-! ### C8: translation of the aquarium and the skip-one-step rule -/

theorem moveOrigin_frame (d : Position) (w : World) (c : ChildRef) :
    (moveOrigin d w c).pos = w.pos ∧ (moveOrigin d w c).width = w.width ∧
    (moveOrigin d w c).height = w.height ∧ (moveOrigin d w c).children = w.children := by
  cases c <;> simp [moveOrigin, setFish, setFood]

theorem moveFold_frame (d : Position) :
    ∀ (l : List ChildRef) (w : World),
      (l.foldl (moveOrigin d) w).pos = w.pos ∧
      (l.foldl (moveOrigin d) w).children = w.children := by
  intro l
  induction l with
  | nil => intro w; exact ⟨rfl, rfl⟩
  | cons c rest ih =>
    intro w
    have h1 := moveOrigin_frame d w c
    have h2 := ih (moveOrigin d w c)
    rw [List.foldl_cons]
    exact ⟨h2.1.trans h1.1, h2.2.trans h1.2.2.2⟩

theorem moveOrigin_fish_other (d : Position) (w : World) (i : Nat) {c : ChildRef}
    (h : c ≠ ChildRef.fishRef i) :
    getFish? (moveOrigin d w c) i = getFish? w i := by
  cases c with
  | foodRef j => rfl
  | fishRef j =>
    have : j ≠ i := fun hji => h (by rw [hji])
    simp [moveOrigin, getFish?, setFish, lookup_setId_other _ (Ne.symm this)]

theorem moveOrigin_food_other (d : Position) (w : World) (i : Nat) {c : ChildRef}
    (h : c ≠ ChildRef.foodRef i) :
    getFood? (moveOrigin d w c) i = getFood? w i := by
  cases c with
  | fishRef j => rfl
  | foodRef j =>
    have : j ≠ i := fun hji => h (by rw [hji])
    simp [moveOrigin, getFood?, setFood, lookup_setId_other _ (Ne.symm this)]

theorem moveFold_fish_not_mem (d : Position) :
    ∀ (l : List ChildRef) (w : World) (i : Nat), ChildRef.fishRef i ∉ l →
      getFish? (l.foldl (moveOrigin d) w) i = getFish? w i := by
  intro l
  induction l with
  | nil => intro w i _; rfl
  | cons c rest ih =>
    intro w i hmem
    rw [List.foldl_cons]
    have hc : c ≠ ChildRef.fishRef i := fun hc => hmem (hc ▸ List.mem_cons_self _ _)
    rw [ih _ i (fun h => hmem (List.mem_cons_of_mem _ h))]
    exact moveOrigin_fish_other d w i hc

theorem moveFold_food_not_mem (d : Position) :
    ∀ (l : List ChildRef) (w : World) (i : Nat), ChildRef.foodRef i ∉ l →
      getFood? (l.foldl (moveOrigin d) w) i = getFood? w i := by
  intro l
  induction l with
  | nil => intro w i _; rfl
  | cons c rest ih =>
    intro w i hmem
    rw [List.foldl_cons]
    have hc : c ≠ ChildRef.foodRef i := fun hc => hmem (hc ▸ List.mem_cons_self _ _)
    rw [ih _ i (fun h => hmem (List.mem_cons_of_mem _ h))]
    exact moveOrigin_food_other d w i hc

theorem moveFold_fish_mem (d : Position) :
    ∀ (l : List ChildRef) (w : World) (i : Nat) (f : FishData), l.Nodup →
      ChildRef.fishRef i ∈ l → getFish? w i = some f →
      getFish? (l.foldl (moveOrigin d) w) i = some
        { f with pos := f.pos + d,
                 path := f.path.map (fun ph => (ph.1 + d, ph.2)),
                 skip_frame := true } := by
  intro l
  induction l with
  | nil => intro w i f _ hmem; exact absurd hmem (List.not_mem_nil _)
  | cons c rest ih =>
    intro w i f hnd hmem hf
    obtain ⟨hcrest, hndrest⟩ := List.nodup_cons.1 hnd
    rw [List.foldl_cons]
    rcases List.mem_cons.1 hmem with hceq | hrest
    · rw [← hceq] at hcrest
      rw [moveFold_fish_not_mem d rest _ i hcrest, ← hceq]
      have hf' : lookupId w.fishes i = some f := hf
      simp [moveOrigin, getFish?, setFish, lookup_setId_self, hf']
    · have hc : c ≠ ChildRef.fishRef i := fun hc => hcrest (hc ▸ hrest)
      exact ih _ i f hndrest hrest ((moveOrigin_fish_other d w i hc).trans hf)

theorem moveFold_food_mem (d : Position) :
    ∀ (l : List ChildRef) (w : World) (i : Nat) (g : FoodData), l.Nodup →
      ChildRef.foodRef i ∈ l → getFood? w i = some g →
      getFood? (l.foldl (moveOrigin d) w) i = some { g with pos := g.pos + d } := by
  intro l
  induction l with
  | nil => intro w i g _ hmem; exact absurd hmem (List.not_mem_nil _)
  | cons c rest ih =>
    intro w i g hnd hmem hg
    obtain ⟨hcrest, hndrest⟩ := List.nodup_cons.1 hnd
    rw [List.foldl_cons]
    rcases List.mem_cons.1 hmem with hceq | hrest
    · rw [← hceq] at hcrest
      rw [moveFold_food_not_mem d rest _ i hcrest, ← hceq]
      have hg' : lookupId w.foods i = some g := hg
      simp [moveOrigin, getFood?, setFood, lookup_setId_self, hg']
    · have hc : c ≠ ChildRef.foodRef i := fun hc => hcrest (hc ▸ hrest)
      exact ih _ i g hndrest hrest ((moveOrigin_food_other d w i hc).trans hg)

/-- C8: `Aquarium.move(new)` sets the aquarium origin to `new` and shifts
every child's position — and every buffered path entry of every fish, with
headings untouched — by the delta `new - origin`, and the next
`Fish.update` of a fish that is mid-path, holds no target and has no food
in the tank clears the skip flag and reports success without consuming a
path step (position, heading and path are unchanged). -/
theorem C8_translate_and_skip :
    (∀ (w : World) (newpos : Position), w.children.Nodup →
      (moveAquarium w newpos).pos = newpos ∧
      (moveAquarium w newpos).children = w.children ∧
      (∀ i f, ChildRef.fishRef i ∈ w.children → getFish? w i = some f →
        getFish? (moveAquarium w newpos) i = some
          { f with pos := f.pos + (newpos - w.pos),
                   path := f.path.map (fun ph => (ph.1 + (newpos - w.pos), ph.2)),
                   skip_frame := true }) ∧
      (∀ i g, ChildRef.foodRef i ∈ w.children → getFood? w i = some g →
        getFood? (moveAquarium w newpos) i = some
          { g with pos := g.pos + (newpos - w.pos) })) ∧
    (∀ (w : World) (fid : Nat) (f : FishData) (o : Oracle),
      getFish? w fid = some f → hasFood w = false → f.target = none →
      f.path ≠ [] → f.skip_frame = true →
      fishUpdate w fid o
        = (setFish w fid (fun _ => { f with skip_frame := false }), true, o) ∧
      getFish? (fishUpdate w fid o).1 fid = some { f with skip_frame := false }) := by
  constructor
  · intro w newpos hnd
    refine ⟨?_, ?_, ?_, ?_⟩
    · exact (moveFold_frame (newpos - w.pos) _ _).1
    · exact (moveFold_frame (newpos - w.pos) _ _).2
    · intro i f hmem hf
      exact moveFold_fish_mem (newpos - w.pos) w.children _ i f hnd hmem hf
    · intro i g hmem hg
      exact moveFold_food_mem (newpos - w.pos) w.children _ i g hnd hmem hg
  · intro w fid f o hf hnofood htar hpath hskip
    have hacq : fishAcquire w f = (w, f) := by
      simp [fishAcquire, hnofood]
    have hsteps : fishSteps345 w fid f o
        = (setFish w fid (fun _ => { f with skip_frame := false }), true, o) := by
      rw [fishSteps345, if_neg hpath, if_pos (by rw [hskip])]
    have hrun : fishUpdate w fid o
        = (setFish w fid (fun _ => { f with skip_frame := false }), true, o) := by
      simp only [fishUpdate, hf, hacq, fishPursue, htar]
      rw [htar] at hsteps
      exact hsteps
    refine ⟨hrun, ?_⟩
    rw [hrun]
    have hf' : lookupId w.fishes fid = some f := hf
    simp [getFish?, setFish, lookup_setId_self, hf']

/-- Witness for C8: translating the one-fish aquarium `wC8` by (5,5) and
then updating the fish. -/
theorem C8_witness :
    (moveAquarium wC8 ⟨5, 5⟩).pos = ⟨5, 5⟩ ∧
    getFish? (moveAquarium wC8 ⟨5, 5⟩) 0 = some
      { fC8 with pos := fC8.pos + (⟨5, 5⟩ - wC8.pos),
                 path := fC8.path.map (fun ph => (ph.1 + (⟨5, 5⟩ - wC8.pos), ph.2)),
                 skip_frame := true } ∧
    fishUpdate wC8 0 []
      = (setFish wC8 0 (fun _ => { fC8 with skip_frame := false }), true, []) := by
  have ha := (C8_translate_and_skip.1 wC8 ⟨5, 5⟩ (by decide))
  have hb := (C8_translate_and_skip.2 wC8 0 fC8 [] (by decide) (by decide) (by decide)
    (by decide) (by decide))
  exact ⟨ha.1, ha.2.2.1 0 fC8 (by decide) (by decide), hb.1⟩

/-! ### C5: the targeters counter never exceeds 2 -/

theorem foodsBounded_setId (f : FoodData → FoodData) (i : Nat)
    (l : List (Nat × FoodData)) (hl : foodsBounded l)
    (hf : ∀ a : FoodData, a.targeters ≤ 2 → (f a).targeters ≤ 2) :
    foodsBounded (setId f i l) := by
  intro p hp
  rcases mem_setId f i l p hp with h1 | ⟨a, ha1, ha2⟩
  · exact hl p h1
  · rw [ha2]
    exact hf a (hl (i, a) (lookup_mem ha1))

theorem findFoodTarget_spec (w : World) (p : Position) :
    ∀ (l : List ChildRef) (i : Nat) (fd : FoodData),
      findFoodTarget w p l = some (i, fd) →
      getFood? w i = some fd ∧ fd.targeters < 2 := by
  intro l
  induction l with
  | nil => intro i fd h; simp [findFoodTarget] at h
  | cons c rest ih =>
    intro i fd h
    cases c with
    | fishRef j =>
      rw [findFoodTarget] at h
      exact ih i fd h
    | foodRef j =>
      rw [findFoodTarget] at h
      cases hj : getFood? w j with
      | none =>
        simp only [hj] at h
        exact ih i fd h
      | some gd =>
        simp only [hj] at h
        by_cases hcond : gd.targeters < 2 ∧ distLe p gd.pos 5 = true
        · rw [if_pos hcond] at h
          obtain ⟨rfl, rfl⟩ : j = i ∧ gd = fd := by
            have := Option.some.inj h
            exact ⟨congrArg Prod.fst this, congrArg Prod.snd this⟩
          exact ⟨hj, hcond.1⟩
        · rw [if_neg hcond] at h
          exact ih i fd h

theorem fishAcquire_bounded (w : World) (f : FishData)
    (h : foodsBounded w.foods) : foodsBounded (fishAcquire w f).1.foods := by
  rw [fishAcquire]
  split
  · cases hft : findFoodTarget w f.pos w.children with
    | none => exact h
    | some pr =>
      obtain ⟨i, fd⟩ := pr
      obtain ⟨hlook, hlt⟩ := findFoodTarget_spec w f.pos w.children i fd hft
      show foodsBounded (setFood w i _).foods
      intro p hp
      rcases mem_setId _ i w.foods p hp with h1 | ⟨a, ha1, ha2⟩
      · exact h p h1
      · have : a = fd := by
          have : lookupId w.foods i = some fd := hlook
          rw [this] at ha1
          exact (Option.some.inj ha1).symm
        rw [ha2, this]
        simpa using by omega
  · exact h

theorem fishSteps345_foods (w : World) (fid : Nat) (f : FishData) (o : Oracle) :
    (fishSteps345 w fid f o).1.foods = w.foods := by
  rw [fishSteps345]
  dsimp only
  repeat' split
  all_goals rfl

theorem fishPursue_bounded (w : World) (fid : Nat) (f : FishData) (o : Oracle)
    (h : foodsBounded w.foods) : foodsBounded (fishPursue w fid f o).1.foods := by
  rw [fishPursue]
  split
  · rw [fishSteps345_foods]; exact h
  · split
    · rw [fishSteps345_foods]; exact h
    · split
      · dsimp only
        split <;>
          exact foodsBounded_setId _ _ w.foods h (fun a ha => by dsimp only; omega)
      · dsimp only
        rw [fishSteps345_foods]
        exact h

theorem fishUpdate_bounded (w : World) (fid : Nat) (o : Oracle)
    (h : foodsBounded w.foods) : foodsBounded (fishUpdate w fid o).1.foods := by
  rw [fishUpdate]
  cases hf : getFish? w fid with
  | none => exact h
  | some f0 =>
    exact fishPursue_bounded _ fid _ o (fishAcquire_bounded w f0 h)

theorem foodUpdate_bounded (w : World) (fid : Nat) (o : Oracle)
    (h : foodsBounded w.foods) : foodsBounded (foodUpdate w fid o).1.foods := by
  rw [foodUpdate]
  split
  · exact h
  · split
    · exact h
    · split
      · exact foodsBounded_setId _ fid w.foods h (fun a ha => by dsimp only; omega)
      · split
        split
        dsimp only
        split
        · split
          · exact foodsBounded_setId _ fid w.foods h (fun a ha => by dsimp only; omega)
          · exact foodsBounded_setId _ fid w.foods h (fun a ha => by dsimp only; omega)
        · exact foodsBounded_setId _ fid w.foods h (fun a ha => by dsimp only; omega)

theorem recover_bounded (w : World) (c : ChildRef) (o : Oracle)
    (h : foodsBounded w.foods) : foodsBounded (recover w c o).1.foods := by
  cases c with
  | fishRef i =>
    rw [recover]
    split
    · exact h
    · split
      exact h
  | foodRef i => exact h

theorem clampChild_bounded (w : World) (c : ChildRef)
    (h : foodsBounded w.foods) : foodsBounded (clampChild w c).foods := by
  cases c with
  | fishRef i => exact h
  | foodRef i => exact foodsBounded_setId _ i w.foods h (fun a ha => by dsimp only; omega)

theorem incLifetime_bounded (w : World) (c : ChildRef)
    (h : foodsBounded w.foods) : foodsBounded (incLifetime w c).foods := by
  cases c with
  | fishRef i => exact h
  | foodRef i => exact foodsBounded_setId _ i w.foods h (fun a ha => by dsimp only; omega)

theorem updateVisit_bounded (w : World) (c : ChildRef) (o : Oracle)
    (h : foodsBounded w.foods) : foodsBounded (updateVisit w c o).1.foods := by
  rw [updateVisit]
  have hcu : foodsBounded (childUpdate w c o).1.foods := by
    cases c with
    | fishRef i => exact fishUpdate_bounded w i o h
    | foodRef i => exact foodUpdate_bounded w i o h
  cases hcu' : childUpdate w c o with
  | mk w1 rest =>
    obtain ⟨ok, o1⟩ := rest
    rw [hcu'] at hcu
    cases ok with
    | true =>
      exact incLifetime_bounded _ c (clampChild_bounded _ c hcu)
    | false =>
      exact incLifetime_bounded _ c (clampChild_bounded _ c (recover_bounded w1 c o1 hcu))

theorem updateLoop_bounded :
    ∀ (fuel : Nat) (w : World) (i : Nat) (o : Oracle),
      foodsBounded w.foods → foodsBounded (updateLoop fuel w i o).1.foods := by
  intro fuel
  induction fuel with
  | zero => intro w i o h; exact h
  | succ fuel ih =>
    intro w i o h
    rw [updateLoop]
    split
    · exact h
    · next c heqc =>
      split
      next w' o' heqv =>
        have hv := updateVisit_bounded w c o h
        rw [heqv] at hv
        exact ih w' (i+1) o' hv

theorem broadcastGo_foods (tid : Nat) :
    ∀ (ids : List Nat) (i : Nat) (w : World),
      (broadcastGo tid i ids w).foods = w.foods := by
  intro ids
  induction ids with
  | nil => intro i w; rfl
  | cons id1 rest ih =>
    intro i w
    rw [broadcastGo]
    rw [ih]
    split <;> rfl

theorem runOp_bounded (w : World) (op : Op)
    (h : foodsBounded w.foods) : foodsBounded (runOp w op).foods := by
  cases op with
  | addFish p r r1 r2 => exact h
  | addFood p =>
    show foodsBounded (broadcastGo _ _ _ _).foods
    rw [broadcastGo_foods]
    intro q hq
    rcases mem_setId _ _ _ q hq with h1 | ⟨a, ha1, ha2⟩
    · rcases List.mem_append.1 h1 with h2 | h3
      · exact h q h2
      · have hq3 : q = (w.nextId, mkFood p) := by simpa using h3
        rw [hq3]
        show (0 : Int) ≤ 2
        norm_num
    · rw [ha2]
      have hmem1 : (w.nextId, a) ∈ w.foods ++ [(w.nextId, mkFood p)] := lookup_mem ha1
      rcases List.mem_append.1 hmem1 with h2 | h3
      · have hta := h (w.nextId, a) h2
        exact hta
      · have ha : a = mkFood p := by simpa using h3
        rw [ha]
        show (0 : Int) ≤ 2
        norm_num
  | update o =>
    exact updateLoop_bounded _ w 0 o h

/-- C5: starting from a fresh aquarium, across any sequence of `add` and
`update` operations, every food object's `targeters` counter stays at
most 2 (the acquire step increments only under the `targeters < 2` guard,
and all other paths only decrement or leave the counter alone). -/
theorem C5_targeters_le_two (p : Position) (width height : Int) (ops : List Op)
    (i : Nat) (fd : FoodData)
    (h : getFood? (runOps (mkAquarium p width height) ops) i = some fd) :
    fd.targeters ≤ 2 := by
  suffices hb : foodsBounded (runOps (mkAquarium p width height) ops).foods by
    exact hb (i, fd) (lookup_mem h)
  have haux : ∀ (l : List Op) (w : World),
      foodsBounded w.foods → foodsBounded (runOps w l).foods := by
    intro l
    induction l with
    | nil => intro w hw; exact hw
    | cons op rest ih =>
      intro w hw
      exact ih (runOp w op) (runOp_bounded w op hw)
  exact haux ops _ (fun q hq => absurd hq (List.not_mem_nil q))

/-- Witness for C5: the food dropped at (1,1) into a fresh 20×10 aquarium
has `targeters = 0 ≤ 2`. -/
theorem C5_witness :
    ({ pos := ⟨1, 1⟩, lifetime := 0, endpoint := some 9, is_static := false,
       targeters := 0, previous_horizontal := 0 } : FoodData).targeters ≤ 2 :=
  C5_targeters_le_two ⟨0, 0⟩ 20 10 [Op.addFood ⟨1, 1⟩] 0
    { pos := ⟨1, 1⟩, lifetime := 0, endpoint := some 9, is_static := false,
      targeters := 0, previous_horizontal := 0 } (by decide)

/-! ### C6: the targeters counter goes negative -/

/-- C6 fails on the code: in the run `wC6` a fish is parked at (3,3), a food
is dropped there — `Aquarium.add`'s broadcast assigns the food as the fish's
target *without* incrementing `targeters` — and on the next tick the fish
consumes it, decrementing `targeters` from 0 to -1.  The acquire path always
pairs the increment with setting the target and the consume path pairs the
decrement with clearing it, so the broadcast's missing increment is the
slip; the counter's own guard (`targeters < 2`, meant to allow at most two
pursuers) is defeated by the negative value. -/
theorem C6_targeters_negative :
    (getFood? wC6 1).map (·.targeters) = some (-1) ∧
    ¬ (0 : Int) ≤ -1 := by
  constructor
  · decide
  · decide

/-! ### C9: lifetime bookkeeping of the update loop -/

theorem fishAcquire_fishes (w : World) (f : FishData) :
    (fishAcquire w f).1.fishes = w.fishes := by
  rw [fishAcquire]
  split
  · split <;> rfl
  · rfl

theorem fishAcquire_lifetime (w : World) (f : FishData) :
    (fishAcquire w f).2.lifetime = f.lifetime := by
  rw [fishAcquire]
  split
  · split <;> rfl
  · rfl

theorem fishSteps345_life (w : World) (fid : Nat) (f : FishData) (o : Oracle) :
    (getFish? (fishSteps345 w fid f o).1 fid).map (·.lifetime)
      = (getFish? w fid).map (fun _ => f.lifetime) := by
  rw [fishSteps345]
  dsimp only
  repeat' split
  all_goals
    simp only [getFish?, setFish, lookup_setId_self, Option.map_map]
  all_goals
    cases lookupId w.fishes fid <;> rfl

theorem fishPursue_life (w : World) (fid : Nat) (f : FishData) (o : Oracle) :
    (getFish? (fishPursue w fid f o).1 fid).map (·.lifetime)
      = (getFish? w fid).map (fun _ => f.lifetime) := by
  rw [fishPursue]
  split
  · exact fishSteps345_life w fid f o
  · split
    · exact fishSteps345_life w fid f o
    · split
      · dsimp only
        simp only [getFish?, setFish, setFood, lookup_setId_self, Option.map_map]
        split <;> (cases lookupId w.fishes fid <;> rfl)
      · dsimp only
        split
        · rw [fishSteps345_life]
        · rw [fishSteps345_life]

theorem fishUpdate_life (w : World) (i : Nat) (o : Oracle) :
    (getFish? (fishUpdate w i o).1 i).map (·.lifetime)
      = (getFish? w i).map (·.lifetime) := by
  rw [fishUpdate]
  split
  · rfl
  · next f0 heq =>
    rw [fishPursue_life]
    have h1 : getFish? (fishAcquire w f0).1 i = getFish? w i := by
      show lookupId (fishAcquire w f0).1.fishes i = _
      rw [fishAcquire_fishes]
      rfl
    rw [h1, heq, fishAcquire_lifetime]
    rfl

theorem foodUpdate_life (w : World) (i : Nat) (o : Oracle) :
    (getFood? (foodUpdate w i o).1 i).map (·.lifetime)
      = (getFood? w i).map (·.lifetime) := by
  rw [foodUpdate]
  split
  · rfl
  · split
    · rfl
    · split
      · simp only [getFood?, setFood, lookup_setId_self, Option.map_map]
        cases lookupId w.foods i <;> rfl
      · split
        split
        dsimp only
        split
        · split <;>
            (simp only [getFood?, setFood, lookup_setId_self, Option.map_map]
             cases lookupId w.foods i <;> rfl)
        · simp only [getFood?, setFood, lookup_setId_self, Option.map_map]
          cases lookupId w.foods i <;> rfl

theorem recover_fish_life (w : World) (i : Nat) (o : Oracle) :
    (getFish? (recover w (ChildRef.fishRef i) o).1 i).map (·.lifetime)
      = (getFish? w i).map (·.lifetime) := by
  rw [recover]
  split
  · rfl
  · split
    simp only [getFish?, setFish, lookup_setId_self, Option.map_map]
    cases lookupId w.fishes i <;> rfl

theorem recover_food_life (w : World) (i : Nat) (o : Oracle) :
    (getFood? (recover w (ChildRef.foodRef i) o).1 i).map (·.lifetime)
      = (getFood? w i).map (·.lifetime) := rfl

theorem clampChild_fish_life (w : World) (i : Nat) :
    (getFish? (clampChild w (ChildRef.fishRef i)) i).map (·.lifetime)
      = (getFish? w i).map (·.lifetime) := by
  show (lookupId (setId _ i w.fishes) i).map _ = _
  simp only [lookup_setId_self, Option.map_map, getFish?]
  cases lookupId w.fishes i <;> rfl

theorem clampChild_food_life (w : World) (i : Nat) :
    (getFood? (clampChild w (ChildRef.foodRef i)) i).map (·.lifetime)
      = (getFood? w i).map (·.lifetime) := by
  show (lookupId (setId _ i w.foods) i).map _ = _
  simp only [lookup_setId_self, Option.map_map, getFood?]
  cases lookupId w.foods i <;> rfl

theorem incLifetime_fish (w : World) (i : Nat) :
    (getFish? (incLifetime w (ChildRef.fishRef i)) i).map (·.lifetime)
      = (getFish? w i).map (fun g => g.lifetime + 1) := by
  show (lookupId (setId _ i w.fishes) i).map _ = _
  simp only [lookup_setId_self, Option.map_map, getFish?]
  cases lookupId w.fishes i <;> rfl

theorem incLifetime_food (w : World) (i : Nat) :
    (getFood? (incLifetime w (ChildRef.foodRef i)) i).map (·.lifetime)
      = (getFood? w i).map (fun g => g.lifetime + 1) := by
  show (lookupId (setId _ i w.foods) i).map _ = _
  simp only [lookup_setId_self, Option.map_map, getFood?]
  cases lookupId w.foods i <;> rfl

/-- Counterexample to C9 as stated: in the run `wC9` the lone fish's first
update draws `randint(0,5) = 4` and returns the failure signal, yet its
lifetime is incremented to 1 (the loop increments unconditionally). -/
theorem C9_cex :
    (fishUpdate wC9pre 0 [4, 0, 0]).2.1 = false ∧
    (getFish? wC9 0).map (·.lifetime) = some 1 := by
  constructor
  · decide
  · decide

/-- C9 (amended): the update loop increments the lifetime of every child it
visits by exactly one — whether the child's update reported success *or*
failure (the code increments unconditionally after the recovery step, so
the claim's "unchanged on failure" is wrong, as `C9_cex` shows; skipped
children are not incremented, see C10). -/
theorem C9_lifetime_per_visit :
    (∀ (w : World) (i : Nat) (fd : FishData) (o : Oracle),
      getFish? w i = some fd →
      (getFish? (updateVisit w (ChildRef.fishRef i) o).1 i).map (·.lifetime)
        = some (fd.lifetime + 1)) ∧
    (∀ (w : World) (i : Nat) (gd : FoodData) (o : Oracle),
      getFood? w i = some gd →
      (getFood? (updateVisit w (ChildRef.foodRef i) o).1 i).map (·.lifetime)
        = some (gd.lifetime + 1)) := by
  have hplus : ∀ (x : Option FishData),
      x.map (fun g => g.lifetime + 1) = (x.map (·.lifetime)).map (fun n => n + 1) := by
    intro x; cases x <;> rfl
  have hplusF : ∀ (x : Option FoodData),
      x.map (fun g => g.lifetime + 1) = (x.map (·.lifetime)).map (fun n => n + 1) := by
    intro x; cases x <;> rfl
  constructor
  · intro w i fd o hf
    rw [updateVisit]
    cases hcu : childUpdate w (ChildRef.fishRef i) o with
    | mk w1 bo =>
      obtain ⟨ok, o1⟩ := bo
      have hw1 : (getFish? w1 i).map (·.lifetime) = some fd.lifetime := by
        have hful := fishUpdate_life w i o
        rw [show childUpdate w (ChildRef.fishRef i) o = fishUpdate w i o from rfl] at hcu
        rw [hcu] at hful
        rw [hful, hf]
        rfl
      cases ok with
      | true =>
        show (getFish? (incLifetime (clampChild w1 (ChildRef.fishRef i))
            (ChildRef.fishRef i)) i).map (·.lifetime) = some (fd.lifetime + 1)
        rw [incLifetime_fish, hplus, clampChild_fish_life, hw1]
        rfl
      | false =>
        show (getFish? (incLifetime (clampChild (recover w1 (ChildRef.fishRef i) o1).1
            (ChildRef.fishRef i)) (ChildRef.fishRef i)) i).map (·.lifetime)
          = some (fd.lifetime + 1)
        rw [incLifetime_fish, hplus, clampChild_fish_life, recover_fish_life, hw1]
        rfl
  · intro w i gd o hg
    rw [updateVisit]
    cases hcu : childUpdate w (ChildRef.foodRef i) o with
    | mk w1 bo =>
      obtain ⟨ok, o1⟩ := bo
      have hw1 : (getFood? w1 i).map (·.lifetime) = some gd.lifetime := by
        have hful := foodUpdate_life w i o
        rw [show childUpdate w (ChildRef.foodRef i) o = foodUpdate w i o from rfl] at hcu
        rw [hcu] at hful
        rw [hful, hg]
        rfl
      cases ok with
      | true =>
        show (getFood? (incLifetime (clampChild w1 (ChildRef.foodRef i))
            (ChildRef.foodRef i)) i).map (·.lifetime) = some (gd.lifetime + 1)
        rw [incLifetime_food, hplusF, clampChild_food_life, hw1]
        rfl
      | false =>
        show (getFood? (incLifetime (clampChild (recover w1 (ChildRef.foodRef i) o1).1
            (ChildRef.foodRef i)) (ChildRef.foodRef i)) i).map (·.lifetime)
          = some (gd.lifetime + 1)
        rw [incLifetime_food, hplusF, clampChild_food_life, recover_food_life, hw1]
        rfl

/-- Witness for C9 (amended): visiting the lone fish of `wC9pre` (update
fails there) still increments its lifetime from 0 to 1. -/
theorem C9_witness :
    (getFish? (updateVisit wC9pre (ChildRef.fishRef 0) [4, 0, 0]).1 0).map (·.lifetime)
      = some ((mkFish ⟨3, 3⟩).lifetime + 1) :=
  C9_lifetime_per_visit.1 wC9pre 0 (mkFish ⟨3, 3⟩) [4, 0, 0] (by decide)

/-! ### C10: the mid-iteration removal skip -/

theorem removeFirst_not_mem {l : List ChildRef} {x : ChildRef} (h : x ∉ l) :
    removeFirst l x = l := by
  induction l with
  | nil => rfl
  | cons c rest ih =>
    rw [removeFirst]
    rw [if_neg (fun hcx => h (by rw [← hcx]; exact List.mem_cons_self _ _))]
    rw [ih (fun hx => h (List.mem_cons_of_mem _ hx))]

theorem mem_removeFirst {l : List ChildRef} {x c : ChildRef}
    (h : c ∈ removeFirst l x) : c ∈ l := by
  induction l with
  | nil => exact absurd h (List.not_mem_nil c)
  | cons a rest ih =>
    rw [removeFirst] at h
    by_cases ha : a = x
    · rw [if_pos ha] at h
      exact List.mem_cons_of_mem _ h
    · rw [if_neg ha] at h
      rcases List.mem_cons.1 h with h1 | h2
      · rw [h1]; exact List.mem_cons_self _ _
      · exact List.mem_cons_of_mem _ (ih h2)

theorem mem_drop_succ {α : Type} {l : List α} {m : Nat} {c : α}
    (h : c ∈ l.drop (m + 1)) : c ∈ l.drop m := by
  have h1 : l.drop (m + 1) = (l.drop m).drop 1 := by
    rw [List.drop_drop]
  rw [h1] at h
  exact List.mem_of_mem_drop h

theorem mem_drop_removeFirst {x : ChildRef} :
    ∀ (l : List ChildRef) (m : Nat) (c : ChildRef),
      c ∈ (removeFirst l x).drop m → c ∈ l.drop m := by
  intro l
  induction l with
  | nil => intro m c h; rw [removeFirst] at h; exact absurd h (by simp)
  | cons a rest ih =>
    intro m c h
    rw [removeFirst] at h
    by_cases ha : a = x
    · rw [if_pos ha] at h
      cases m with
      | zero => exact List.mem_cons_of_mem _ h
      | succ m => exact mem_drop_succ (by simp; exact h)
    · rw [if_neg ha] at h
      cases m with
      | zero =>
        rcases List.mem_cons.1 h with h1 | h2
        · rw [h1]; exact List.mem_cons_self _ _
        · exact List.mem_cons_of_mem _ (mem_removeFirst h2)
      | succ m =>
        have h2 : c ∈ (removeFirst rest x).drop m := by simpa using h
        simpa using ih m c h2

theorem nth?_mem_drop {α : Type} :
    ∀ (l : List α) (i : Nat) (c : α), nth? l i = some c → c ∈ l.drop i := by
  intro l
  induction l with
  | nil => intro i c h; cases i <;> exact absurd h (by rw [nth?]; simp)
  | cons a rest ih =>
    intro i c h
    cases i with
    | zero =>
      rw [nth?] at h
      rw [Option.some.inj h]
      simp
    | succ i =>
      rw [nth?] at h
      simpa using ih i c h

theorem nth?_append_length_add {α : Type} :
    ∀ (X l : List α) (k : Nat), nth? (X ++ l) (X.length + k) = nth? l k := by
  intro X
  induction X with
  | nil => intro l k; rw [List.nil_append, List.length_nil, Nat.zero_add]
  | cons a rest ih =>
    intro l k
    have h1 : (a :: rest).length + k = (rest.length + k) + 1 := by
      rw [List.length_cons]; omega
    rw [List.cons_append, h1, nth?]
    exact ih l k

theorem nth?_append_length {α : Type} (X : List α) (c : α) (l : List α) :
    nth? (X ++ c :: l) X.length = some c := by
  have := nth?_append_length_add X (c :: l) 0
  simpa using this

theorem posLife_setFish_other (w : World) (i id : Nat) (hne : i ≠ id)
    (f : FishData → FishData) : posLife (setFish w i f) id = posLife w id := by
  show ((lookupId (setId f i w.fishes) id).map _, (lookupId w.foods id).map _) = _
  rw [lookup_setId_other _ (Ne.symm hne)]
  rfl

theorem posLife_setFish_pres (w : World) (i id : Nat) (f : FishData → FishData)
    (hpres : ∀ a, (f a).pos = a.pos ∧ (f a).lifetime = a.lifetime) :
    posLife (setFish w i f) id = posLife w id := by
  unfold posLife getFish? getFood? setFish
  dsimp only
  by_cases hid : id = i
  · subst hid
    rw [lookup_setId_self]
    cases lookupId w.fishes id with
    | none => rfl
    | some a =>
      dsimp only [Option.map]
      rw [(hpres a).1, (hpres a).2]
  · rw [lookup_setId_other _ hid]

theorem posLife_setFood_other (w : World) (i id : Nat) (hne : i ≠ id)
    (f : FoodData → FoodData) : posLife (setFood w i f) id = posLife w id := by
  show ((lookupId w.fishes id).map _, (lookupId (setId f i w.foods) id).map _) = _
  rw [lookup_setId_other _ (Ne.symm hne)]
  rfl

theorem posLife_setFood_pres (w : World) (i id : Nat) (f : FoodData → FoodData)
    (hpres : ∀ a, (f a).pos = a.pos ∧ (f a).lifetime = a.lifetime) :
    posLife (setFood w i f) id = posLife w id := by
  unfold posLife getFish? getFood? setFood
  dsimp only
  by_cases hid : id = i
  · subst hid
    rw [lookup_setId_self]
    cases lookupId w.foods id with
    | none => rfl
    | some a =>
      dsimp only [Option.map]
      rw [(hpres a).1, (hpres a).2]
  · rw [lookup_setId_other _ hid]

theorem posLife_children_irrelevant (w : World) (l : List ChildRef) (id : Nat) :
    posLife { w with children := l } id = posLife w id := rfl

theorem fishAcquire_posLife (w : World) (f : FishData) (id : Nat) :
    posLife (fishAcquire w f).1 id = posLife w id := by
  rw [fishAcquire]
  split
  · split
    · exact posLife_setFood_pres w _ id _ (fun a => ⟨rfl, rfl⟩)
    · rfl
  · rfl

theorem fishSteps345_posLife (w : World) (fid : Nat) (f : FishData) (o : Oracle)
    (id : Nat) (hne : fid ≠ id) :
    posLife (fishSteps345 w fid f o).1 id = posLife w id := by
  rw [fishSteps345]
  dsimp only
  repeat' split
  all_goals exact posLife_setFish_other w fid id hne _

theorem fishPursue_posLife (w : World) (fid : Nat) (f : FishData) (o : Oracle)
    (id : Nat) (hne : fid ≠ id) :
    posLife (fishPursue w fid f o).1 id = posLife w id := by
  rw [fishPursue]
  split
  · exact fishSteps345_posLife w fid f o id hne
  · split
    · exact fishSteps345_posLife w fid f o id hne
    · split
      · dsimp only
        split
        · rw [posLife_setFish_other _ fid id hne]
          rw [posLife_children_irrelevant]
          exact posLife_setFood_pres w _ id _ (fun a => ⟨rfl, rfl⟩)
        · rw [posLife_setFish_other _ fid id hne]
          exact posLife_setFood_pres w _ id _ (fun a => ⟨rfl, rfl⟩)
      · dsimp only
        exact fishSteps345_posLife w fid _ o id hne

theorem fishUpdate_posLife (w : World) (fid : Nat) (o : Oracle) (id : Nat)
    (hne : fid ≠ id) : posLife (fishUpdate w fid o).1 id = posLife w id := by
  rw [fishUpdate]
  split
  · rfl
  · rw [fishPursue_posLife _ fid _ o id hne, fishAcquire_posLife]

theorem foodUpdate_posLife (w : World) (fid : Nat) (o : Oracle) (id : Nat)
    (hne : fid ≠ id) : posLife (foodUpdate w fid o).1 id = posLife w id := by
  rw [foodUpdate]
  split
  · rfl
  · split
    · rfl
    · split
      · exact posLife_setFood_other w fid id hne _
      · split
        split
        dsimp only
        split
        · split <;> exact posLife_setFood_other w fid id hne _
        · exact posLife_setFood_other w fid id hne _

theorem recover_posLife (w : World) (c : ChildRef) (o : Oracle) (id : Nat) :
    posLife (recover w c o).1 id = posLife w id := by
  cases c with
  | fishRef i =>
    rw [recover]
    split
    · rfl
    · split
      exact posLife_setFish_pres w i id _ (fun a => ⟨rfl, rfl⟩)
  | foodRef i => rfl

theorem clampChild_posLife (w : World) (c : ChildRef) (id : Nat)
    (hne : c.idOf ≠ id) : posLife (clampChild w c) id = posLife w id := by
  cases c with
  | fishRef i => exact posLife_setFish_other w i id hne _
  | foodRef i => exact posLife_setFood_other w i id hne _

theorem incLifetime_posLife (w : World) (c : ChildRef) (id : Nat)
    (hne : c.idOf ≠ id) : posLife (incLifetime w c) id = posLife w id := by
  cases c with
  | fishRef i => exact posLife_setFish_other w i id hne _
  | foodRef i => exact posLife_setFood_other w i id hne _

theorem updateVisit_posLife (w : World) (c : ChildRef) (o : Oracle) (id : Nat)
    (hne : c.idOf ≠ id) : posLife (updateVisit w c o).1 id = posLife w id := by
  rw [updateVisit]
  cases hcu : childUpdate w c o with
  | mk w1 bo =>
    obtain ⟨ok, o1⟩ := bo
    have hw1 : posLife w1 id = posLife w id := by
      cases c with
      | fishRef i =>
        have := fishUpdate_posLife w i o id hne
        rw [show childUpdate w (ChildRef.fishRef i) o = fishUpdate w i o from rfl] at hcu
        rw [hcu] at this
        exact this
      | foodRef i =>
        have := foodUpdate_posLife w i o id hne
        rw [show childUpdate w (ChildRef.foodRef i) o = foodUpdate w i o from rfl] at hcu
        rw [hcu] at this
        exact this
    cases ok with
    | true =>
      show posLife (incLifetime (clampChild w1 c) c) id = posLife w id
      rw [incLifetime_posLife _ c id hne, clampChild_posLife _ c id hne, hw1]
    | false =>
      show posLife (incLifetime (clampChild (recover w1 c o1).1 c) c) id = posLife w id
      rw [incLifetime_posLife _ c id hne, clampChild_posLife _ c id hne,
        recover_posLife, hw1]

theorem removeFirst_append_not_mem {A : List ChildRef} {x : ChildRef}
    (h : x ∉ A) (rest : List ChildRef) :
    removeFirst (A ++ x :: rest) x = A ++ rest := by
  induction A with
  | nil => rw [List.nil_append, removeFirst, if_pos rfl, List.nil_append]
  | cons a A ih =>
    rw [List.cons_append, removeFirst]
    rw [if_neg (fun ha => h (by rw [← ha]; exact List.mem_cons_self _ _))]
    rw [ih (fun hx => h (List.mem_cons_of_mem _ hx)), List.cons_append]

theorem removeFirst_append_of_mem {X : List ChildRef} {x : ChildRef}
    (h : x ∈ X) (Y : List ChildRef) :
    removeFirst (X ++ Y) x = removeFirst X x ++ Y := by
  induction X with
  | nil => exact absurd h (List.not_mem_nil x)
  | cons a X ih =>
    rw [List.cons_append, removeFirst, removeFirst]
    by_cases ha : a = x
    · rw [if_pos ha, if_pos ha]
    · rw [if_neg ha, if_neg ha, List.cons_append]
      rcases List.mem_cons.1 h with h1 | h2
      · exact absurd h1.symm ha
      · rw [ih h2]

theorem removeFirst_length_mem {X : List ChildRef} {x : ChildRef} (h : x ∈ X) :
    (removeFirst X x).length + 1 = X.length := by
  induction X with
  | nil => exact absurd h (List.not_mem_nil x)
  | cons a X ih =>
    rw [removeFirst]
    by_cases ha : a = x
    · rw [if_pos ha, List.length_cons]
    · rw [if_neg ha, List.length_cons, List.length_cons]
      rcases List.mem_cons.1 h with h1 | h2
      · exact absurd h1.symm ha
      · rw [ih h2]

theorem drop_append_cons {α : Type} (A : List α) (c : α) (B : List α) :
    (A ++ c :: B).drop (A.length + 1) = B := by
  have h1 : A ++ c :: B = (A ++ [c]) ++ B := by simp
  have h2 : A.length + 1 = (A ++ [c]).length := by simp
  rw [h1, h2, List.drop_left]

theorem fishAcquire_children (w : World) (f : FishData) :
    (fishAcquire w f).1.children = w.children := by
  rw [fishAcquire]
  split
  · split <;> rfl
  · rfl

theorem fishSteps345_children (w : World) (fid : Nat) (f : FishData) (o : Oracle) :
    (fishSteps345 w fid f o).1.children = w.children := by
  rw [fishSteps345]
  dsimp only
  repeat' split
  all_goals rfl

theorem fishPursue_children (w : World) (fid : Nat) (f : FishData) (o : Oracle) :
    (fishPursue w fid f o).1.children = w.children ∨
    ∃ tid : Nat, (fishPursue w fid f o).1.children
      = removeFirst w.children (ChildRef.foodRef tid) := by
  rw [fishPursue]
  split
  · left; exact fishSteps345_children w fid f o
  next tid heq =>
    split
    · left; exact fishSteps345_children w fid f o
    next td heq2 =>
      split
      · dsimp only
        split
        · right; exact ⟨tid, rfl⟩
        · left; rfl
      · dsimp only
        left; exact fishSteps345_children w fid _ o

theorem fishUpdate_children (w : World) (fid : Nat) (o : Oracle) :
    (fishUpdate w fid o).1.children = w.children ∨
    ∃ tid : Nat, (fishUpdate w fid o).1.children
      = removeFirst w.children (ChildRef.foodRef tid) := by
  rw [fishUpdate]
  split
  · left; rfl
  next f0 heq =>
    have h := fishPursue_children (fishAcquire w f0).1 fid (fishAcquire w f0).2 o
    rw [fishAcquire_children] at h
    exact h

theorem foodUpdate_children (w : World) (fid : Nat) (o : Oracle) :
    (foodUpdate w fid o).1.children = w.children := by
  rw [foodUpdate]
  split
  · rfl
  · split
    · rfl
    · split
      · rfl
      · split
        split
        dsimp only
        split
        · split <;> rfl
        · rfl

theorem recover_fish_children (w : World) (i : Nat) (o : Oracle) :
    (recover w (ChildRef.fishRef i) o).1.children = w.children := by
  rw [recover]
  split
  · rfl
  · split
    rfl

theorem clampChild_children (w : World) (c : ChildRef) :
    (clampChild w c).children = w.children := by
  cases c <;> rfl

theorem incLifetime_children (w : World) (c : ChildRef) :
    (incLifetime w c).children = w.children := by
  cases c <;> rfl

theorem updateVisit_children (w : World) (c : ChildRef) (o : Oracle) :
    (updateVisit w c o).1.children = w.children ∨
    ∃ tid : Nat, (updateVisit w c o).1.children
      = removeFirst w.children (ChildRef.foodRef tid) := by
  rw [updateVisit]
  cases hcu : childUpdate w c o with
  | mk w1 bo =>
    obtain ⟨ok, o1⟩ := bo
    cases c with
    | fishRef i =>
      have hch := fishUpdate_children w i o
      rw [show childUpdate w (ChildRef.fishRef i) o = fishUpdate w i o from rfl] at hcu
      rw [hcu] at hch
      cases ok with
      | true =>
        show (incLifetime (clampChild w1 (ChildRef.fishRef i)) (ChildRef.fishRef i)).children
            = w.children ∨
          ∃ tid, (incLifetime (clampChild w1 (ChildRef.fishRef i))
            (ChildRef.fishRef i)).children = removeFirst w.children (ChildRef.foodRef tid)
        rw [incLifetime_children, clampChild_children]
        rcases hch with h | ⟨tid, h⟩
        · left; exact h
        · right; exact ⟨tid, h⟩
      | false =>
        show (incLifetime (clampChild (recover w1 (ChildRef.fishRef i) o1).1
            (ChildRef.fishRef i)) (ChildRef.fishRef i)).children = w.children ∨
          ∃ tid, (incLifetime (clampChild (recover w1 (ChildRef.fishRef i) o1).1
            (ChildRef.fishRef i)) (ChildRef.fishRef i)).children
            = removeFirst w.children (ChildRef.foodRef tid)
        rw [incLifetime_children, clampChild_children, recover_fish_children]
        rcases hch with h | ⟨tid, h⟩
        · left; exact h
        · right; exact ⟨tid, h⟩
    | foodRef i =>
      have hch : w1.children = w.children := by
        have h := foodUpdate_children w i o
        rw [show childUpdate w (ChildRef.foodRef i) o = foodUpdate w i o from rfl] at hcu
        rw [hcu] at h
        exact h
      cases ok with
      | true =>
        show (incLifetime (clampChild w1 (ChildRef.foodRef i)) (ChildRef.foodRef i)).children
            = w.children ∨
          ∃ tid, (incLifetime (clampChild w1 (ChildRef.foodRef i))
            (ChildRef.foodRef i)).children = removeFirst w.children (ChildRef.foodRef tid)
        rw [incLifetime_children, clampChild_children]
        left; exact hch
      | false =>
        right
        refine ⟨i, ?_⟩
        show (incLifetime (clampChild (recover w1 (ChildRef.foodRef i) o1).1
            (ChildRef.foodRef i)) (ChildRef.foodRef i)).children
          = removeFirst w.children (ChildRef.foodRef i)
        rw [incLifetime_children, clampChild_children]
        show removeFirst w1.children (ChildRef.foodRef i)
          = removeFirst w.children (ChildRef.foodRef i)
        rw [hch]

/-- If an identity does not occur among the children at or after the
iterator's index, the remainder of the update loop leaves that object's
position and lifetime untouched. -/
theorem updateLoop_posLife :
    ∀ (fuel : Nat) (w : World) (i : Nat) (o : Oracle) (id : Nat),
      (∀ c ∈ w.children.drop i, ChildRef.idOf c ≠ id) →
      posLife (updateLoop fuel w i o).1 id = posLife w id := by
  intro fuel
  induction fuel with
  | zero => intro w i o id h; rfl
  | succ fuel ih =>
    intro w i o id h
    rw [updateLoop]
    split
    · rfl
    next c heqc =>
      split
      next w' o' heqv =>
        have hcm : c ∈ w.children.drop i := nth?_mem_drop w.children i c heqc
        have hcne : ChildRef.idOf c ≠ id := h c hcm
        have hv : posLife w' id = posLife w id := by
          have hp := updateVisit_posLife w c o id hcne
          rw [heqv] at hp
          exact hp
        have hch : w'.children = w.children ∨
            ∃ tid, w'.children = removeFirst w.children (ChildRef.foodRef tid) := by
          have hc := updateVisit_children w c o
          rw [heqv] at hc
          exact hc
        have hnext : ∀ c' ∈ w'.children.drop (i+1), ChildRef.idOf c' ≠ id := by
          intro c' hc'
          rcases hch with h1 | ⟨x, h2⟩
          · rw [h1] at hc'
            exact h c' (mem_drop_succ hc')
          · rw [h2] at hc'
            exact h c' (mem_drop_succ (mem_drop_removeFirst _ _ _ hc'))
        rw [ih w' (i+1) o' id hnext]
        exact hv

/-- A failing food at the iterator's index removes itself from `children`. -/
theorem updateVisit_food_fail (w : World) (fid : Nat) (o : Oracle)
    (hfail : (foodUpdate w fid o).2.1 = false) :
    (updateVisit w (ChildRef.foodRef fid) o).1.children
      = removeFirst w.children (ChildRef.foodRef fid) := by
  rw [updateVisit]
  cases hcu : childUpdate w (ChildRef.foodRef fid) o with
  | mk w1 bo =>
    obtain ⟨ok, o1⟩ := bo
    have hok : ok = false := by
      rw [show childUpdate w (ChildRef.foodRef fid) o = foodUpdate w fid o from rfl] at hcu
      rw [hcu] at hfail
      exact hfail
    subst hok
    show (incLifetime (clampChild (recover w1 (ChildRef.foodRef fid) o1).1
        (ChildRef.foodRef fid)) (ChildRef.foodRef fid)).children
      = removeFirst w.children (ChildRef.foodRef fid)
    rw [incLifetime_children, clampChild_children]
    show removeFirst w1.children (ChildRef.foodRef fid)
      = removeFirst w.children (ChildRef.foodRef fid)
    have hch : w1.children = w.children := by
      have h := foodUpdate_children w fid o
      rw [show childUpdate w (ChildRef.foodRef fid) o = foodUpdate w fid o from rfl] at hcu
      rw [hcu] at h
      exact h
    rw [hch]

/-- A fish consuming a target still present in `children` removes exactly
that food from `children` during its visit. -/
theorem updateVisit_fish_consume_children (w : World) (fid tid : Nat)
    (f : FishData) (td : FoodData) (o : Oracle)
    (hf : getFish? w fid = some f) (ht : f.target = some tid)
    (htd : getFood? w tid = some td) (hdist : distLe f.pos td.pos 1 = true)
    (hmem : memChild (ChildRef.foodRef tid) w.children = true) :
    (updateVisit w (ChildRef.fishRef fid) o).1.children
      = removeFirst w.children (ChildRef.foodRef tid) := by
  have hacq : fishAcquire w f = (w, f) := by
    simp [fishAcquire, ht]
  have hupd : fishUpdate w fid o =
      (setFish
        { setFood w tid (fun g => { g with targeters := g.targeters - 1 }) with
          children := removeFirst w.children (ChildRef.foodRef tid) }
        fid (fun _ => { f with target := none }), false, o) := by
    simp only [fishUpdate, hf, hacq, fishPursue, ht, htd, hdist, if_true, setFood]
    rw [if_pos hmem]
  rw [updateVisit]
  cases hcu : childUpdate w (ChildRef.fishRef fid) o with
  | mk w1 bo =>
    obtain ⟨ok, o1⟩ := bo
    rw [show childUpdate w (ChildRef.fishRef fid) o = fishUpdate w fid o from rfl,
      hupd] at hcu
    obtain ⟨hw1, hbo⟩ : w1 = _ ∧ (ok, o1) = (false, o) :=
      ⟨(Prod.mk.inj hcu.symm).1, (Prod.mk.inj hcu.symm).2⟩
    obtain ⟨hok, ho1⟩ : ok = false ∧ o1 = o :=
      ⟨(Prod.mk.inj hbo).1, (Prod.mk.inj hbo).2⟩
    subst hok
    show (incLifetime (clampChild (recover w1 (ChildRef.fishRef fid) o1).1
        (ChildRef.fishRef fid)) (ChildRef.fishRef fid)).children
      = removeFirst w.children (ChildRef.foodRef tid)
    rw [incLifetime_children, clampChild_children, recover_fish_children, hw1]
    rfl

/-- C10 (amended): when the food at the iterator's index fails and removes
itself, the child that was just after it is skipped for the rest of the
tick — its position and lifetime are untouched (part 1, as the claim
states).  When a fish consumes a food, the skipped child is the one just
after the *fish* (the iterator's next index), and only when the consumed
food sat at an earlier index than the fish; a food consumed at a later
index shifts nothing the iterator has yet to visit, and no child is
skipped — `C10_cex` shows the child after such a food being processed
(part 2, correcting the claim). -/
theorem C10_removal_skip :
    (∀ (A B : List ChildRef) (w : World) (fid : Nat) (cref : ChildRef)
        (o : Oracle) (fuel : Nat),
      w.children = A ++ ChildRef.foodRef fid :: cref :: B →
      ChildRef.foodRef fid ∉ A →
      (foodUpdate w fid o).2.1 = false →
      ChildRef.idOf cref ≠ fid →
      (∀ c ∈ B, ChildRef.idOf c ≠ ChildRef.idOf cref) →
      posLife (updateLoop fuel w A.length o).1 (ChildRef.idOf cref)
        = posLife w (ChildRef.idOf cref)) ∧
    (∀ (X B : List ChildRef) (w : World) (fid tid : Nat) (f : FishData)
        (td : FoodData) (cref : ChildRef) (o : Oracle) (fuel : Nat),
      w.children = X ++ ChildRef.fishRef fid :: cref :: B →
      ChildRef.foodRef tid ∈ X →
      getFish? w fid = some f → f.target = some tid →
      getFood? w tid = some td → distLe f.pos td.pos 1 = true →
      ChildRef.idOf cref ≠ fid →
      (∀ c ∈ B, ChildRef.idOf c ≠ ChildRef.idOf cref) →
      posLife (updateLoop fuel w X.length o).1 (ChildRef.idOf cref)
        = posLife w (ChildRef.idOf cref)) := by
  constructor
  · intro A B w fid cref o fuel hch hnotA hfail hcne hB
    cases fuel with
    | zero => rfl
    | succ fuel =>
      rw [updateLoop]
      have hnth : nth? w.children A.length = some (ChildRef.foodRef fid) := by
        rw [hch]
        exact nth?_append_length A _ _
      rw [hnth]
      show posLife (match updateVisit w (ChildRef.foodRef fid) o with
        | (w', o') => updateLoop fuel w' (A.length + 1) o').1 (ChildRef.idOf cref)
        = posLife w (ChildRef.idOf cref)
      cases hv : updateVisit w (ChildRef.foodRef fid) o with
      | mk w' o' =>
        show posLife (updateLoop fuel w' (A.length + 1) o').1 (ChildRef.idOf cref)
          = posLife w (ChildRef.idOf cref)
        have hvp : posLife w' (ChildRef.idOf cref) = posLife w (ChildRef.idOf cref) := by
          have hp := updateVisit_posLife w (ChildRef.foodRef fid) o
            (ChildRef.idOf cref) (Ne.symm hcne)
          rw [hv] at hp
          exact hp
        have hwc : w'.children = A ++ cref :: B := by
          have hc := updateVisit_food_fail w fid o hfail
          rw [hv] at hc
          rw [hc, hch, removeFirst_append_not_mem hnotA]
        rw [updateLoop_posLife fuel w' (A.length + 1) o' (ChildRef.idOf cref)
          (fun c' hc' => hB c' (by rw [hwc, drop_append_cons] at hc'; exact hc'))]
        exact hvp
  · intro X B w fid tid f td cref o fuel hch htidX hf ht htd hdist hcne hB
    cases fuel with
    | zero => rfl
    | succ fuel =>
      rw [updateLoop]
      have hnth : nth? w.children X.length = some (ChildRef.fishRef fid) := by
        rw [hch]
        exact nth?_append_length X _ _
      rw [hnth]
      have hmem : memChild (ChildRef.foodRef tid) w.children = true := by
        rw [memChild_iff, hch]
        exact List.mem_append_left _ htidX
      show posLife (match updateVisit w (ChildRef.fishRef fid) o with
        | (w', o') => updateLoop fuel w' (X.length + 1) o').1 (ChildRef.idOf cref)
        = posLife w (ChildRef.idOf cref)
      cases hv : updateVisit w (ChildRef.fishRef fid) o with
      | mk w' o' =>
        show posLife (updateLoop fuel w' (X.length + 1) o').1 (ChildRef.idOf cref)
          = posLife w (ChildRef.idOf cref)
        have hvp : posLife w' (ChildRef.idOf cref) = posLife w (ChildRef.idOf cref) := by
          have hp := updateVisit_posLife w (ChildRef.fishRef fid) o
            (ChildRef.idOf cref) (Ne.symm hcne)
          rw [hv] at hp
          exact hp
        have hwc : w'.children
            = removeFirst X (ChildRef.foodRef tid) ++ ChildRef.fishRef fid :: cref :: B := by
          have hc := updateVisit_fish_consume_children w fid tid f td o hf ht htd hdist hmem
          rw [hv] at hc
          rw [hc, hch, removeFirst_append_of_mem htidX]
        have hdrop : w'.children.drop (X.length + 1) = B := by
          rw [hwc]
          have h1 : removeFirst X (ChildRef.foodRef tid) ++ ChildRef.fishRef fid :: cref :: B
              = (removeFirst X (ChildRef.foodRef tid) ++ [ChildRef.fishRef fid]) ++ cref :: B := by
            simp
          have h2 : X.length + 1
              = (removeFirst X (ChildRef.foodRef tid) ++ [ChildRef.fishRef fid]).length + 1 := by
            rw [List.length_append, List.length_singleton, removeFirst_length_mem htidX]
          rw [h1, h2, drop_append_cons]
        rw [updateLoop_posLife fuel w' (X.length + 1) o' (ChildRef.idOf cref)
          (fun c' hc' => hB c' (by rw [hdrop] at hc'; exact hc'))]
        exact hvp

/-- Counterexample to C10's second half as stated: in the run `wC10` the
fish (index 0, id 0) consumes the food (index 1, id 1) that *follows* it;
the claim says the child following the food — fish id 2 at index 2 — is
then skipped, but it is processed: its lifetime is incremented to 1 in the
same tick in which the food disappears from `children`. -/
theorem C10_cex :
    ChildRef.foodRef 1 ∉ wC10.children ∧
    (getFish? wC10 2).map (·.lifetime) = some 1 := by
  constructor
  · decide
  · decide

/-- Witness for C10 (amended), part 1, at the concrete state `wC10w`: the
unregistered food at index 0 fails, removes itself, and the fish that was
at index 1 keeps its position and lifetime for the whole remaining loop. -/
theorem C10_witness :
    posLife (updateLoop 2 wC10w 0 [0, 0, 0, 0]).1 1 = posLife wC10w 1 := by
  have h := C10_removal_skip.1 [] [] wC10w 0 (ChildRef.fishRef 1) [0, 0, 0, 0] 2
    (by decide) (by decide) (by decide) (by decide) (by decide)
  exact h

/-! ### C1: bounds after a tick -/

theorem clampPos_inBounds (aq : Position) (W H cw : Int) (p : Position)
    (hH : 1 ≤ H) (hcw : cw ≤ W + 1) :
    inBounds aq W H cw (clampPos aq W H cw p) = true := by
  simp only [inBounds, clampPos, decide_eq_true_eq, max_def, min_def]
  split_ifs <;> constructor <;> try constructor
  all_goals try constructor
  all_goals omega

theorem fishSteps345_fish_other (w : World) (fid : Nat) (f : FishData)
    (o : Oracle) (j : Nat) (hne : fid ≠ j) :
    getFish? (fishSteps345 w fid f o).1 j = getFish? w j := by
  rw [fishSteps345]
  dsimp only
  repeat' split
  all_goals
    show lookupId (setId _ fid w.fishes) j = _
  all_goals
    rw [lookup_setId_other _ (Ne.symm hne)]
  all_goals rfl

theorem fishPursue_fish_other (w : World) (fid : Nat) (f : FishData)
    (o : Oracle) (j : Nat) (hne : fid ≠ j) :
    getFish? (fishPursue w fid f o).1 j = getFish? w j := by
  rw [fishPursue]
  split
  · exact fishSteps345_fish_other w fid f o j hne
  · split
    · exact fishSteps345_fish_other w fid f o j hne
    · split
      · dsimp only
        split <;>
          (show lookupId (setId _ fid _) j = _
           rw [lookup_setId_other _ (Ne.symm hne)]
           rfl)
      · dsimp only
        exact fishSteps345_fish_other w fid _ o j hne

theorem fishUpdate_fish_other (w : World) (fid : Nat) (o : Oracle) (j : Nat)
    (hne : fid ≠ j) : getFish? (fishUpdate w fid o).1 j = getFish? w j := by
  rw [fishUpdate]
  split
  · rfl
  · rw [fishPursue_fish_other _ fid _ o j hne]
    show lookupId (fishAcquire w _).1.fishes j = _
    rw [fishAcquire_fishes]
    rfl

theorem foodUpdate_fish_any (w : World) (fid : Nat) (o : Oracle) (j : Nat) :
    getFish? (foodUpdate w fid o).1 j = getFish? w j := by
  rw [foodUpdate]
  split
  · rfl
  · split
    · rfl
    · split
      · rfl
      · split
        split
        dsimp only
        split
        · split <;> rfl
        · rfl

theorem recover_fish_other (w : World) (c : ChildRef) (o : Oracle) (j : Nat)
    (hne : c.idOf ≠ j) : getFish? (recover w c o).1 j = getFish? w j := by
  cases c with
  | fishRef i =>
    have hne' : i ≠ j := hne
    rw [recover]
    split
    · rfl
    · split
      show lookupId (setId _ i w.fishes) j = _
      rw [lookup_setId_other _ (Ne.symm hne')]
      rfl
  | foodRef i => rfl

theorem clampChild_fish_other (w : World) (c : ChildRef) (j : Nat)
    (hne : c.idOf ≠ j) : getFish? (clampChild w c) j = getFish? w j := by
  cases c with
  | fishRef i =>
    have hne' : i ≠ j := hne
    show lookupId (setId _ i w.fishes) j = _
    rw [lookup_setId_other _ (Ne.symm hne')]
    rfl
  | foodRef i => rfl

theorem incLifetime_fish_other (w : World) (c : ChildRef) (j : Nat)
    (hne : c.idOf ≠ j) : getFish? (incLifetime w c) j = getFish? w j := by
  cases c with
  | fishRef i =>
    have hne' : i ≠ j := hne
    show lookupId (setId _ i w.fishes) j = _
    rw [lookup_setId_other _ (Ne.symm hne')]
    rfl
  | foodRef i => rfl

theorem updateVisit_fish_other (w : World) (c : ChildRef) (o : Oracle) (j : Nat)
    (hne : c.idOf ≠ j) : getFish? (updateVisit w c o).1 j = getFish? w j := by
  rw [updateVisit]
  cases hcu : childUpdate w c o with
  | mk w1 bo =>
    obtain ⟨ok, o1⟩ := bo
    have hw1 : getFish? w1 j = getFish? w j := by
      cases c with
      | fishRef i =>
        have h := fishUpdate_fish_other w i o j hne
        rw [show childUpdate w (ChildRef.fishRef i) o = fishUpdate w i o from rfl] at hcu
        rw [hcu] at h
        exact h
      | foodRef i =>
        have h := foodUpdate_fish_any w i o j
        rw [show childUpdate w (ChildRef.foodRef i) o = foodUpdate w i o from rfl] at hcu
        rw [hcu] at h
        exact h
    cases ok with
    | true =>
      show getFish? (incLifetime (clampChild w1 c) c) j = getFish? w j
      rw [incLifetime_fish_other _ c j hne, clampChild_fish_other _ c j hne, hw1]
    | false =>
      show getFish? (incLifetime (clampChild (recover w1 c o1).1 c) c) j = getFish? w j
      rw [incLifetime_fish_other _ c j hne, clampChild_fish_other _ c j hne,
        recover_fish_other _ c o1 j hne, hw1]

theorem fishAcquire_width (w : World) (f : FishData) :
    (fishAcquire w f).2.width = f.width := by
  rw [fishAcquire]
  split
  · split <;> rfl
  · rfl

theorem fishSteps345_width (w : World) (fid : Nat) (f : FishData) (o : Oracle) :
    (getFish? (fishSteps345 w fid f o).1 fid).map (·.width)
      = (getFish? w fid).map (fun _ => f.width) := by
  rw [fishSteps345]
  dsimp only
  repeat' split
  all_goals
    simp only [getFish?, setFish, lookup_setId_self, Option.map_map]
  all_goals
    cases lookupId w.fishes fid <;> rfl

theorem fishPursue_width (w : World) (fid : Nat) (f : FishData) (o : Oracle) :
    (getFish? (fishPursue w fid f o).1 fid).map (·.width)
      = (getFish? w fid).map (fun _ => f.width) := by
  rw [fishPursue]
  split
  · exact fishSteps345_width w fid f o
  · split
    · exact fishSteps345_width w fid f o
    · split
      · dsimp only
        simp only [getFish?, setFish, setFood, lookup_setId_self, Option.map_map]
        split <;> (cases lookupId w.fishes fid <;> rfl)
      · dsimp only
        split
        · rw [fishSteps345_width]
        · rw [fishSteps345_width]

theorem fishUpdate_width (w : World) (i : Nat) (o : Oracle) :
    (getFish? (fishUpdate w i o).1 i).map (·.width)
      = (getFish? w i).map (·.width) := by
  rw [fishUpdate]
  split
  · rfl
  · next f0 heq =>
    rw [fishPursue_width]
    have h1 : getFish? (fishAcquire w f0).1 i = getFish? w i := by
      show lookupId (fishAcquire w f0).1.fishes i = _
      rw [fishAcquire_fishes]
      rfl
    rw [h1, heq, fishAcquire_width]
    rfl

theorem recover_fish_width (w : World) (i : Nat) (o : Oracle) :
    (getFish? (recover w (ChildRef.fishRef i) o).1 i).map (·.width)
      = (getFish? w i).map (·.width) := by
  rw [recover]
  split
  · rfl
  · split
    simp only [getFish?, setFish, lookup_setId_self, Option.map_map]
    cases lookupId w.fishes i <;> rfl

theorem clampChild_fish_width (w : World) (i : Nat) :
    (getFish? (clampChild w (ChildRef.fishRef i)) i).map (·.width)
      = (getFish? w i).map (·.width) := by
  show (lookupId (setId _ i w.fishes) i).map _ = _
  simp only [lookup_setId_self, Option.map_map, getFish?]
  cases lookupId w.fishes i <;> rfl

theorem incLifetime_fish_width (w : World) (i : Nat) :
    (getFish? (incLifetime w (ChildRef.fishRef i)) i).map (·.width)
      = (getFish? w i).map (·.width) := by
  show (lookupId (setId _ i w.fishes) i).map _ = _
  simp only [lookup_setId_self, Option.map_map, getFish?]
  cases lookupId w.fishes i <;> rfl

theorem updateVisit_fish_width (w : World) (i : Nat) (o : Oracle) :
    (getFish? (updateVisit w (ChildRef.fishRef i) o).1 i).map (·.width)
      = (getFish? w i).map (·.width) := by
  rw [updateVisit]
  cases hcu : childUpdate w (ChildRef.fishRef i) o with
  | mk w1 bo =>
    obtain ⟨ok, o1⟩ := bo
    have hw1 : (getFish? w1 i).map (·.width) = (getFish? w i).map (·.width) := by
      have h := fishUpdate_width w i o
      rw [show childUpdate w (ChildRef.fishRef i) o = fishUpdate w i o from rfl] at hcu
      rw [hcu] at h
      exact h
    cases ok with
    | true =>
      show (getFish? (incLifetime (clampChild w1 (ChildRef.fishRef i))
          (ChildRef.fishRef i)) i).map (·.width) = _
      rw [incLifetime_fish_width, clampChild_fish_width, hw1]
    | false =>
      show (getFish? (incLifetime (clampChild (recover w1 (ChildRef.fishRef i) o1).1
          (ChildRef.fishRef i)) (ChildRef.fishRef i)) i).map (·.width) = _
      rw [incLifetime_fish_width, clampChild_fish_width, recover_fish_width, hw1]

theorem fishSteps345_dims (w : World) (fid : Nat) (f : FishData) (o : Oracle) :
    (fishSteps345 w fid f o).1.pos = w.pos ∧
    (fishSteps345 w fid f o).1.width = w.width ∧
    (fishSteps345 w fid f o).1.height = w.height := by
  rw [fishSteps345]
  dsimp only
  repeat' split
  all_goals exact ⟨rfl, rfl, rfl⟩

theorem fishPursue_dims (w : World) (fid : Nat) (f : FishData) (o : Oracle) :
    (fishPursue w fid f o).1.pos = w.pos ∧
    (fishPursue w fid f o).1.width = w.width ∧
    (fishPursue w fid f o).1.height = w.height := by
  rw [fishPursue]
  split
  · exact fishSteps345_dims w fid f o
  · split
    · exact fishSteps345_dims w fid f o
    · split
      · dsimp only
        split <;> exact ⟨rfl, rfl, rfl⟩
      · dsimp only
        exact fishSteps345_dims w fid _ o

theorem childUpdate_dims (w : World) (c : ChildRef) (o : Oracle) :
    (childUpdate w c o).1.pos = w.pos ∧
    (childUpdate w c o).1.width = w.width ∧
    (childUpdate w c o).1.height = w.height := by
  cases c with
  | fishRef i =>
    show (fishUpdate w i o).1.pos = w.pos ∧ (fishUpdate w i o).1.width = w.width ∧
      (fishUpdate w i o).1.height = w.height
    rw [fishUpdate]
    split
    · exact ⟨rfl, rfl, rfl⟩
    · next f0 heq =>
      have h := fishPursue_dims (fishAcquire w f0).1 i (fishAcquire w f0).2 o
      have ha : (fishAcquire w f0).1.pos = w.pos ∧
          (fishAcquire w f0).1.width = w.width ∧
          (fishAcquire w f0).1.height = w.height := by
        rw [fishAcquire]
        split
        · split <;> exact ⟨rfl, rfl, rfl⟩
        · exact ⟨rfl, rfl, rfl⟩
      exact ⟨h.1.trans ha.1, (h.2.1).trans ha.2.1, (h.2.2).trans ha.2.2⟩
  | foodRef i =>
    show (foodUpdate w i o).1.pos = w.pos ∧ (foodUpdate w i o).1.width = w.width ∧
      (foodUpdate w i o).1.height = w.height
    rw [foodUpdate]
    split
    · exact ⟨rfl, rfl, rfl⟩
    · split
      · exact ⟨rfl, rfl, rfl⟩
      · split
        · exact ⟨rfl, rfl, rfl⟩
        · split
          split
          dsimp only
          split
          · split <;> exact ⟨rfl, rfl, rfl⟩
          · exact ⟨rfl, rfl, rfl⟩

theorem recover_dims (w : World) (c : ChildRef) (o : Oracle) :
    (recover w c o).1.pos = w.pos ∧
    (recover w c o).1.width = w.width ∧
    (recover w c o).1.height = w.height := by
  cases c with
  | fishRef i =>
    rw [recover]
    split
    · exact ⟨rfl, rfl, rfl⟩
    · split
      exact ⟨rfl, rfl, rfl⟩
  | foodRef i => exact ⟨rfl, rfl, rfl⟩

theorem clampChild_dims (w : World) (c : ChildRef) :
    (clampChild w c).pos = w.pos ∧ (clampChild w c).width = w.width ∧
    (clampChild w c).height = w.height := by
  cases c <;> exact ⟨rfl, rfl, rfl⟩

theorem incLifetime_dims (w : World) (c : ChildRef) :
    (incLifetime w c).pos = w.pos ∧ (incLifetime w c).width = w.width ∧
    (incLifetime w c).height = w.height := by
  cases c <;> exact ⟨rfl, rfl, rfl⟩

theorem updateVisit_dims (w : World) (c : ChildRef) (o : Oracle) :
    (updateVisit w c o).1.pos = w.pos ∧
    (updateVisit w c o).1.width = w.width ∧
    (updateVisit w c o).1.height = w.height := by
  rw [updateVisit]
  cases hcu : childUpdate w c o with
  | mk w1 bo =>
    obtain ⟨ok, o1⟩ := bo
    have h1 : w1.pos = w.pos ∧ w1.width = w.width ∧ w1.height = w.height := by
      have h := childUpdate_dims w c o
      rw [hcu] at h
      exact h
    cases ok with
    | true =>
      show (incLifetime (clampChild w1 c) c).pos = _ ∧ _
      have h2 := incLifetime_dims (clampChild w1 c) c
      have h3 := clampChild_dims w1 c
      exact ⟨(h2.1.trans h3.1).trans h1.1, (h2.2.1.trans h3.2.1).trans h1.2.1,
        (h2.2.2.trans h3.2.2).trans h1.2.2⟩
    | false =>
      show (incLifetime (clampChild (recover w1 c o1).1 c) c).pos = _ ∧ _
      have h2 := incLifetime_dims (clampChild (recover w1 c o1).1 c) c
      have h3 := clampChild_dims (recover w1 c o1).1 c
      have h4 := recover_dims w1 c o1
      exact ⟨(h2.1.trans h3.1).trans (h4.1.trans h1.1),
        (h2.2.1.trans h3.2.1).trans (h4.2.1.trans h1.2.1),
        (h2.2.2.trans h3.2.2).trans (h4.2.2.trans h1.2.2)⟩

theorem updateVisit_fish_clamped (w : World) (fid : Nat) (o : Oracle)
    (hH : 1 ≤ w.height)
    (hwd : ∀ g, getFish? w fid = some g → g.width ≤ w.width + 1) :
    childInBounds (updateVisit w (ChildRef.fishRef fid) o).1
      (ChildRef.fishRef fid) = true := by
  rw [updateVisit]
  cases hcu : childUpdate w (ChildRef.fishRef fid) o with
  | mk w1 bo =>
    obtain ⟨ok, o1⟩ := bo
    have hdims : w1.pos = w.pos ∧ w1.width = w.width ∧ w1.height = w.height := by
      have h := childUpdate_dims w (ChildRef.fishRef fid) o
      rw [hcu] at h
      exact h
    have hwmap : (getFish? w1 fid).map (·.width) = (getFish? w fid).map (·.width) := by
      have h := fishUpdate_width w fid o
      rw [show childUpdate w (ChildRef.fishRef fid) o = fishUpdate w fid o from rfl] at hcu
      rw [hcu] at h
      exact h
    have hgen : ∀ W2 : World, W2.pos = w.pos → W2.width = w.width →
        W2.height = w.height →
        (getFish? W2 fid).map (·.width) = (getFish? w fid).map (·.width) →
        childInBounds (incLifetime (clampChild W2 (ChildRef.fishRef fid))
          (ChildRef.fishRef fid)) (ChildRef.fishRef fid) = true := by
      intro W2 hp hwid hh hmapw
      have hlook : getFish? (incLifetime (clampChild W2 (ChildRef.fishRef fid))
          (ChildRef.fishRef fid)) fid
        = ((getFish? W2 fid).map (fun f =>
            { f with pos := clampPos W2.pos W2.width W2.height f.width f.pos })).map
            (fun f => { f with lifetime := f.lifetime + 1 }) := by
        show lookupId (setId _ fid (setId _ fid W2.fishes)) fid = _
        rw [lookup_setId_self, lookup_setId_self]
        rfl
      cases hf2 : getFish? W2 fid with
      | none =>
        rw [hf2] at hlook
        simp only [childInBounds, hlook]
        rfl
      | some f' =>
        have hww : f'.width ≤ w.width + 1 := by
          rw [hf2] at hmapw
          cases hg : getFish? w fid with
          | none => rw [hg] at hmapw; exact absurd hmapw (by simp)
          | some g =>
            rw [hg] at hmapw
            have hfg : f'.width = g.width := by simpa using hmapw
            rw [hfg]
            exact hwd g hg
        rw [hf2] at hlook
        simp only [Option.map_some'] at hlook
        simp only [childInBounds, hlook]
        show inBounds (incLifetime (clampChild W2 (ChildRef.fishRef fid))
            (ChildRef.fishRef fid)).pos
          (incLifetime (clampChild W2 (ChildRef.fishRef fid)) (ChildRef.fishRef fid)).width
          (incLifetime (clampChild W2 (ChildRef.fishRef fid)) (ChildRef.fishRef fid)).height
          f'.width (clampPos W2.pos W2.width W2.height f'.width f'.pos) = true
        show inBounds W2.pos W2.width W2.height f'.width
          (clampPos W2.pos W2.width W2.height f'.width f'.pos) = true
        rw [hp, hwid, hh]
        exact clampPos_inBounds w.pos w.width w.height f'.width f'.pos hH hww
    cases ok with
    | true =>
      show childInBounds (incLifetime (clampChild w1 (ChildRef.fishRef fid))
        (ChildRef.fishRef fid)) (ChildRef.fishRef fid) = true
      exact hgen w1 hdims.1 hdims.2.1 hdims.2.2 hwmap
    | false =>
      show childInBounds (incLifetime (clampChild (recover w1 (ChildRef.fishRef fid) o1).1
        (ChildRef.fishRef fid)) (ChildRef.fishRef fid)) (ChildRef.fishRef fid) = true
      have hrd := recover_dims w1 (ChildRef.fishRef fid) o1
      refine hgen (recover w1 (ChildRef.fishRef fid) o1).1 (hrd.1.trans hdims.1)
        (hrd.2.1.trans hdims.2.1) (hrd.2.2.trans hdims.2.2) ?_
      rw [recover_fish_width, hwmap]

theorem nth?_some_mem {α : Type} {l : List α} {i : Nat} {c : α}
    (h : nth? l i = some c) : c ∈ l :=
  List.mem_of_mem_drop (nth?_mem_drop l i c h)

theorem nth?_none_length {α : Type} :
    ∀ (l : List α) (i : Nat), nth? l i = none → l.length ≤ i := by
  intro l
  induction l with
  | nil => intro i _; simp
  | cons a rest ih =>
    intro i h
    cases i with
    | zero => exact absurd h (by rw [nth?]; simp)
    | succ i =>
      rw [nth?] at h
      have := ih i h
      simp only [List.length_cons]
      omega

theorem mem_nth? {α : Type} {l : List α} {c : α} (h : c ∈ l) :
    ∃ k, k < l.length ∧ nth? l k = some c := by
  induction l with
  | nil => exact absurd h (List.not_mem_nil c)
  | cons a rest ih =>
    rcases List.mem_cons.1 h with h1 | h2
    · exact ⟨0, by simp, by rw [h1]; rfl⟩
    · obtain ⟨k, hk, hnth⟩ := ih h2
      exact ⟨k + 1, by simp only [List.length_cons]; omega, by rw [nth?]; exact hnth⟩

theorem childInBounds_congr (w w' : World) (c : ChildRef)
    (hpos : w'.pos = w.pos) (hw : w'.width = w.width) (hh : w'.height = w.height)
    (hfish : ∀ i, c = ChildRef.fishRef i → getFish? w' i = getFish? w i)
    (hfood : ∀ i, c = ChildRef.foodRef i → getFood? w' i = getFood? w i) :
    childInBounds w' c = childInBounds w c := by
  cases c with
  | fishRef i =>
    simp only [childInBounds]
    rw [hfish i rfl, hpos, hw, hh]
  | foodRef i =>
    simp only [childInBounds]
    rw [hfood i rfl, hpos, hw, hh]

theorem updateLoop_bounds :
    ∀ (fuel : Nat) (w : World) (i : Nat) (o : Oracle),
      (∀ c ∈ w.children, ChildRef.isFish c = true) →
      1 ≤ w.height →
      (∀ j g, ChildRef.fishRef j ∈ w.children → getFish? w j = some g →
        g.width ≤ w.width + 1) →
      w.children.length ≤ i + fuel →
      (∀ k, k < i → ∀ c, nth? w.children k = some c → childInBounds w c = true) →
      ∀ c ∈ (updateLoop fuel w i o).1.children,
        childInBounds (updateLoop fuel w i o).1 c = true := by
  intro fuel
  induction fuel with
  | zero =>
    intro w i o hall hH hwd hlen hinv
    show ∀ c ∈ w.children, childInBounds w c = true
    intro c hc
    obtain ⟨k, hk, hnth⟩ := mem_nth? hc
    exact hinv k (by omega) c hnth
  | succ fuel ih =>
    intro w i o hall hH hwd hlen hinv
    rw [updateLoop]
    cases hn : nth? w.children i with
    | none =>
      have hni := nth?_none_length w.children i hn
      show ∀ c ∈ w.children, childInBounds w c = true
      intro c hc
      obtain ⟨k, hk, hnth⟩ := mem_nth? hc
      exact hinv k (by omega) c hnth
    | some c =>
      have hcm : c ∈ w.children := nth?_some_mem hn
      have hcf := hall c hcm
      cases c with
      | foodRef fid => exact absurd hcf (by simp [ChildRef.isFish])
      | fishRef fid =>
        have hnf : ∀ tid, ChildRef.foodRef tid ∉ w.children := by
          intro tid hm
          have hmf := hall _ hm
          simp [ChildRef.isFish] at hmf
        show ∀ c' ∈ (match updateVisit w (ChildRef.fishRef fid) o with
            | (w', o') => updateLoop fuel w' (i+1) o').1.children,
          childInBounds (match updateVisit w (ChildRef.fishRef fid) o with
            | (w', o') => updateLoop fuel w' (i+1) o').1 c' = true
        cases hv : updateVisit w (ChildRef.fishRef fid) o with
        | mk w' o' =>
          have hch : w'.children = w.children := by
            rcases updateVisit_children w (ChildRef.fishRef fid) o with h1 | ⟨tid, h2⟩
            · rw [hv] at h1; exact h1
            · rw [hv] at h2
              rw [h2, removeFirst_not_mem (hnf tid)]
          have hdims : w'.pos = w.pos ∧ w'.width = w.width ∧ w'.height = w.height := by
            have h := updateVisit_dims w (ChildRef.fishRef fid) o
            rw [hv] at h
            exact h
          have hother : ∀ j, j ≠ fid → getFish? w' j = getFish? w j := by
            intro j hj
            have h := updateVisit_fish_other w (ChildRef.fishRef fid) o j (Ne.symm hj)
            rw [hv] at h
            exact h
          have hwidfid : (getFish? w' fid).map (·.width)
              = (getFish? w fid).map (·.width) := by
            have h := updateVisit_fish_width w fid o
            rw [hv] at h
            exact h
          have hclamped : childInBounds w' (ChildRef.fishRef fid) = true := by
            have h := updateVisit_fish_clamped w fid o hH
              (fun g hg => hwd fid g hcm hg)
            rw [hv] at h
            exact h
          refine ih w' (i+1) o' ?_ ?_ ?_ ?_ ?_
          · rw [hch]; exact hall
          · rw [hdims.2.2]; exact hH
          · intro j g hjm hjg
            rw [hdims.2.1]
            rw [hch] at hjm
            by_cases hj : j = fid
            · subst hj
              rw [hjg] at hwidfid
              cases hg0 : getFish? w j with
              | none => rw [hg0] at hwidfid; exact absurd hwidfid (by simp)
              | some g0 =>
                rw [hg0] at hwidfid
                have hgg : g.width = g0.width := by simpa using hwidfid
                rw [hgg]
                exact hwd j g0 hjm hg0
            · rw [hother j hj] at hjg
              exact hwd j g hjm hjg
          · rw [hch]; omega
          · intro k hk c' hnth
            rw [hch] at hnth
            have hcm' : c' ∈ w.children := nth?_some_mem hnth
            have hcf' := hall c' hcm'
            cases c' with
            | foodRef j => exact absurd hcf' (by simp [ChildRef.isFish])
            | fishRef j =>
              by_cases hj : j = fid
              · subst hj
                exact hclamped
              · have hki : k ≠ i := by
                  intro hEq
                  rw [hEq, hn] at hnth
                  exact hj (ChildRef.fishRef.inj (Option.some.inj hnth)).symm
                have hprev := hinv k (by omega) (ChildRef.fishRef j) hnth
                rw [childInBounds_congr w w' (ChildRef.fishRef j)
                  hdims.1 hdims.2.1 hdims.2.2
                  (fun ii hii => by
                    cases ChildRef.fishRef.inj hii
                    exact hother j hj)
                  (fun ii hii => nomatch hii)]
                exact hprev

/-- Counterexample to C1 as stated: in the run `wC1`, fish A (id 1)
consumes the food that sits *before* it in the children list; the removal
shifts the list under the live iterator, so fish B (id 2) — parked at
(100, 100), far outside the 20×10 tank at (0, 0) — is never updated nor
clamped, and after `update()` it remains a child with an out-of-bounds
position. -/
theorem C1_cex :
    wC1.children.all (childInBounds wC1) = false ∧
    ChildRef.fishRef 2 ∈ wC1.children ∧
    (getFish? wC1 2).map (·.pos) = some ⟨100, 100⟩ := by
  refine ⟨?_, ?_, ?_⟩ <;> decide

/-- C1 (amended): the bounds invariant does hold for every child the loop
actually visits; in particular, whenever no food is among the children (so
no mid-iteration removal can shift the list and skip anyone), every child
is clamped into bounds by `update()`, provided the tank is at least one
row tall and every fish fits (`width(entity) ≤ width + 1`, without which
the claim's interval is empty and unsatisfiable).  With food present a
removal can leave the child after the iterator unvisited and out of
bounds, as `C1_cex` shows. -/
theorem C1_bounds_no_food (w : World) (o : Oracle)
    (hall : ∀ c ∈ w.children, ChildRef.isFish c = true)
    (hH : 1 ≤ w.height)
    (hwd : ∀ j g, ChildRef.fishRef j ∈ w.children → getFish? w j = some g →
      g.width ≤ w.width + 1) :
    ∀ c ∈ (updateAquarium w o).1.children,
      childInBounds (updateAquarium w o).1 c = true := by
  rw [updateAquarium]
  exact updateLoop_bounds w.children.length w 0 o hall hH hwd (by omega)
    (fun k hk => absurd hk (by omega))

/-- Witness for C1 (amended): the food-free two-fish aquarium `wC1w`, with
both fish parked far outside the tank, has every child in bounds after one
`update()`. -/
theorem C1_witness :
    childInBounds (updateAquarium wC1w []).1 (ChildRef.fishRef 0) = true := by
  have hch : wC1w.children = [ChildRef.fishRef 0, ChildRef.fishRef 1] := rfl
  have h := C1_bounds_no_food wC1w [] (by decide) (by decide) ?_
  · exact h (ChildRef.fishRef 0) (by decide)
  · intro j g hjm hjg
    rw [hch] at hjm
    have hj01 : j = 0 ∨ j = 1 := by
      rcases List.mem_cons.1 hjm with h1 | h2
      · exact Or.inl (ChildRef.fishRef.inj h1)
      · rcases List.mem_cons.1 h2 with h3 | h4
        · exact Or.inr (ChildRef.fishRef.inj h3)
        · exact absurd h4 (List.not_mem_nil _)
    rcases hj01 with rfl | rfl
    · have h0 : getFish? wC1w 0 = some (mkFish ⟨100, 100⟩) := rfl
      rw [h0] at hjg
      cases Option.some.inj hjg
      decide
    · have h1 : getFish? wC1w 1 = some (mkFish ⟨-50, 3⟩) := rfl
      rw [h1] at hjg
      cases Option.some.inj hjg
      decide
